import Mathlib

/-!
Verification of the CSV-analyst agent server (single-file FastAPI app).

This file gives a shallow embedding, over `List Char`, of the parts of the
code base that the specification's claims are about:

* `app/validators/sql_policy.py` — `validate_sql_policy`,
  `contains_blocked_sql_token`, `normalize_sql_for_dataset`;
* `app/validators/compiler.py` — `QueryPlanCompiler`;
* `app/models/query_plan.py` — `Filter` validation and the plan data model;
* `app/agent.py` — `_extract_capsule_data`, `AgentSession.run_agent`,
  `AgentSession.stream_agent`;
* `app/main.py` — `process_chat`, `_normalize_runner_to_status`,
  `chat_stream`.

Python strings are modelled as `List Char`.  Python's Unicode-aware
character predicates (`str.lower`, `str.isalnum`, `str.strip`, the regex
classes) are modelled by their ASCII restrictions, on which they agree with
CPython; every concrete witness and counterexample below is pure ASCII.
Floating-point filter values are not modelled (no claim depends on them).
-/

/-- Python strings are modelled as lists of characters. -/
abbrev Str := List Char

/-- ASCII model of the Python regex class `\s` / `str.strip` whitespace
(space, tab, newline, vertical tab, form feed, carriage return). -/
def isPySpace (c : Char) : Bool :=
  c = ' ' || c = '\t' || c = '\n' || c = '\x0b' || c = '\x0c' || c = '\r'

/-- ASCII model of `str.lower` (CPython lowers `A`-`Z`; no other character
relevant to the policy's token alphabet is lowered to ASCII). -/
def pyLower (s : Str) : Str := s.map Char.toLower

/-- Model of `str.strip()` with no argument: drop leading and trailing
whitespace. -/
def pyStrip (s : Str) : Str :=
  ((s.dropWhile isPySpace).reverse.dropWhile isPySpace).reverse

/-- Model of `s.rstrip(";")`: drop trailing semicolons. -/
def pyRstripSemi (s : Str) : Str :=
  (s.reverse.dropWhile (fun c => c = ';')).reverse

/-- The character class `[a-z0-9_]` used by the policy's word-boundary
lookarounds in `contains_blocked_sql_token` (the scanned string is already
lowercased). -/
def isWordChar (c : Char) : Bool :=
  ('a' ≤ c && c ≤ 'z') || ('0' ≤ c && c ≤ '9') || c = '_'

/-- `SQL_BLOCKLIST` from `app/validators/sql_policy.py`, in source order. -/
def SQL_BLOCKLIST : List Str :=
  ["drop".data, "delete".data, "insert".data, "update".data, "create".data,
   "alter".data, "attach".data, "install".data, "load".data, "pragma".data,
   "call".data, "copy".data, "export".data]

/-- A match of the regex `(?<![a-z0-9_])tok(?![a-z0-9_])` starting at
position `i` of `s`: `tok` is a prefix of `s.drop i` and the neighbouring
characters (when they exist) are outside `[a-z0-9_]`. -/
def tokenMatchAt (s tok : Str) (i : Nat) : Bool :=
  tok.isPrefixOf (s.drop i)
    && (decide (i = 0) || !isWordChar (s.getD (i - 1) ' '))
    && !isWordChar (s.getD (i + tok.length) ' ')

/-- Embedding of `contains_blocked_sql_token(sql_lower, token)`: the regex
search scans every starting position. -/
def contains_blocked_sql_token (sql_lower : Str) (token : Str) : Bool :=
  (List.range (sql_lower.length + 1)).any (tokenMatchAt sql_lower token)

/-- Embedding of `validate_sql_policy(sql)` from
`app/validators/sql_policy.py`.  Returns `none` for "ok", or the rejection
message. -/
def validate_sql_policy (sql : Str) : Option Str :=
  let sql_clean := pyStrip sql
  let lowered := pyLower sql_clean
  if !("select".data.isPrefixOf lowered || "with".data.isPrefixOf lowered) then
    some "Only SELECT/WITH queries are allowed.".data
  else if (pyRstripSemi sql_clean).contains ';' then
    some "Multiple SQL statements are not allowed.".data
  else
    match SQL_BLOCKLIST.find? (fun tok => contains_blocked_sql_token lowered tok) with
    | some tok => some ("SQL contains blocked token: ".data ++ tok)
    | none => none

example : validate_sql_policy "SELECT MAX(created_at) AS t FROM tickets".data = none := by decide
example : validate_sql_policy "SELECT 1; DROP TABLE t".data
    = some "Multiple SQL statements are not allowed.".data := by decide
example : validate_sql_policy "DELETE FROM tickets".data
    = some "Only SELECT/WITH queries are allowed.".data := by decide
example : validate_sql_policy "SELECT drop FROM t".data
    = some "SQL contains blocked token: drop".data := by decide
example : validate_sql_policy "  WITH t AS (SELECT 1) SELECT * FROM t;  ".data = none := by decide
example : validate_sql_policy "select 'drop'".data
    = some "SQL contains blocked token: drop".data := by decide

/-- Spec-side predicate: `tok` occurs in `s` as a whole word, i.e. with no
`[a-z0-9_]` character on either side of the occurrence. -/
def WholeWordOccurs (tok s : Str) : Prop :=
  ∃ pre suf, s = pre ++ tok ++ suf ∧
    (∀ c, pre.getLast? = some c → isWordChar c = false) ∧
    (∀ c, suf.head? = some c → isWordChar c = false)

theorem contains_blocked_iff (s tok : Str) :
    contains_blocked_sql_token s tok = true ↔ WholeWordOccurs tok s := by
  constructor
  · intro h
    obtain ⟨i, hmem, hmatch⟩ := List.any_eq_true.mp h
    rw [List.mem_range, Nat.lt_succ_iff] at hmem
    unfold tokenMatchAt at hmatch
    simp only [Bool.and_eq_true, Bool.or_eq_true, Bool.not_eq_true',
      decide_eq_true_eq] at hmatch
    obtain ⟨⟨hpre, hleft⟩, hright⟩ := hmatch
    rw [List.isPrefixOf_iff_prefix] at hpre
    obtain ⟨suf, hsuf⟩ := hpre
    have hs : s = s.take i ++ tok ++ suf := by
      rw [List.append_assoc, hsuf, List.take_append_drop]
    refine ⟨s.take i, suf, hs, ?_, ?_⟩
    · intro c hc
      rcases hleft with hzero | hw
      · subst hzero; simp at hc
      · have hi0 : i ≠ 0 := by
          intro h0; subst h0; simp at hc
        have hlen : (s.take i).length = i := by
          simp [List.length_take, Nat.min_eq_left hmem]
        have h1 : (s.take i).getLast? = (s.take i)[i - 1]? := by
          rw [List.getLast?_eq_getElem?, hlen]
        have h2 : (s.take i)[i - 1]? = s[i - 1]? := by
          rw [List.getElem?_take,
            if_pos (Nat.sub_lt (Nat.pos_of_ne_zero hi0) Nat.one_pos)]
        have h3 : s[i - 1]? = some c := by rw [← h2, ← h1, hc]
        have h4 : s.getD (i - 1) ' ' = c := by
          simp [List.getD, h3]
        rwa [h4] at hw
    · intro c hc
      have hsufeq : suf = s.drop (i + tok.length) := by
        have : (s.drop i).drop tok.length = suf := by
          rw [← hsuf, List.drop_left' rfl]
        rw [← this, List.drop_drop, Nat.add_comm]
      have h3 : s[i + tok.length]? = some c := by
        rw [← List.head?_drop, ← hsufeq, hc]
      have h4 : s.getD (i + tok.length) ' ' = c := by
        simp [List.getD, h3]
      rwa [h4] at hright
  · rintro ⟨pre, suf, heq, hl, hr⟩
    apply List.any_eq_true.mpr
    refine ⟨pre.length, ?_, ?_⟩
    · rw [List.mem_range, Nat.lt_succ_iff, heq]
      simp
    · unfold tokenMatchAt
      simp only [Bool.and_eq_true, Bool.or_eq_true, Bool.not_eq_true',
        decide_eq_true_eq]
      refine ⟨⟨?_, ?_⟩, ?_⟩
      · rw [List.isPrefixOf_iff_prefix, heq, List.append_assoc,
          List.drop_left]
        exact List.prefix_append tok suf
      · rcases List.eq_nil_or_concat pre with hnil | ⟨ys, y, hcons⟩
        · left; simp [hnil]
        · right
          have hlast : pre.getLast? = some y := by
            rw [hcons]; simp
          have hylen : pre.length - 1 < pre.length := by
            rw [hcons]; simp
          have hidx : s[pre.length - 1]? = some y := by
            rw [heq, List.getElem?_append,
              if_pos (lt_of_lt_of_le hylen (by simp)),
              List.getElem?_append, if_pos hylen,
              ← List.getLast?_eq_getElem?, hlast]
          simp [List.getD, hidx, hl y hlast]
      · cases hsuf : suf with
        | nil =>
          have hnone : s[pre.length + tok.length]? = none := by
            apply List.getElem?_eq_none
            rw [heq, hsuf]; simp
          simp only [List.getD, List.get?_eq_getElem?, hnone, Option.getD_none]
          decide
        | cons d cs =>
          have h5 : s = (pre ++ tok) ++ (d :: cs) := by
            rw [heq, hsuf, List.append_assoc]
          have hidx : s[pre.length + tok.length]? = some d := by
            have h6 : pre.length + tok.length = (pre ++ tok).length := by simp
            rw [h5, h6, List.getElem?_append_right (Nat.le_refl _)]
            simp
          have h7 := hr d (by rw [hsuf]; rfl)
          simp [List.getD, hidx, h7]

/-- Spec-side predicate: every semicolon of `s` lies in the final trailing
run of semicolons (so stripping trailing semicolons leaves none). -/
def SemisOnlyTrailing (s : Str) : Prop :=
  ∃ a b, s = a ++ b ∧ ';' ∉ a ∧ ∀ c ∈ b, c = ';'

theorem mem_pyRstripSemi_iff (s : Str) :
    ';' ∉ pyRstripSemi s ↔ SemisOnlyTrailing s := by
  unfold pyRstripSemi
  constructor
  · intro h
    refine ⟨(s.reverse.dropWhile (fun c => c = ';')).reverse,
      (s.reverse.takeWhile (fun c => c = ';')).reverse, ?_, h, ?_⟩
    · rw [← List.reverse_append, List.takeWhile_append_dropWhile,
        List.reverse_reverse]
    · intro c hc
      rw [List.mem_reverse] at hc
      have := List.mem_takeWhile_imp hc
      simpa using this
  · rintro ⟨a, b, hab, ha, hb⟩
    intro hmem
    rw [List.mem_reverse] at hmem
    have hsrev : s.reverse = b.reverse ++ a.reverse := by
      rw [hab, List.reverse_append]
    rw [hsrev, List.dropWhile_append] at hmem
    have hbnil : b.reverse.dropWhile (fun c => c = ';') = [] := by
      rw [List.dropWhile_eq_nil_iff]
      intro x hx
      simp [hb x (List.mem_reverse.mp hx)]
    rw [hbnil] at hmem
    simp only [List.isEmpty_nil, if_true] at hmem
    exact ha (List.mem_reverse.mp ((List.dropWhile_sublist _).subset hmem))

/-- Bridge between the boolean `List.contains` and membership for `Char`. -/
theorem char_contains_iff (l : Str) (c : Char) : l.contains c = true ↔ c ∈ l := by
  simp [List.contains, List.elem_iff]

/-- Claim C1: `validate_sql_policy(s)` returns "ok" (i.e. `none`) iff,
after trimming whitespace, the lowercased string starts with `select` or
`with`, every semicolon is in the final trailing position, and no
blacklisted token occurs as a whole word (no `[a-z0-9_]` character on
either side) in the lowercased trimmed string. -/
theorem c1_validate_sql_policy_ok_iff (sql : Str) :
    validate_sql_policy sql = none ↔
      (("select".data <+: pyLower (pyStrip sql) ∨
          "with".data <+: pyLower (pyStrip sql))
        ∧ SemisOnlyTrailing (pyStrip sql)
        ∧ ∀ tok ∈ SQL_BLOCKLIST,
            ¬ WholeWordOccurs tok (pyLower (pyStrip sql))) := by
  simp only [validate_sql_policy]
  split_ifs with h1 h2
  · constructor
    · intro h; exact absurd h (by simp)
    · rintro ⟨hstart, -, -⟩
      exfalso
      rw [Bool.not_eq_true'] at h1
      rw [Bool.or_eq_false_iff] at h1
      rcases hstart with h | h <;> rw [← List.isPrefixOf_iff_prefix] at h
      · rw [h1.1] at h; exact absurd h (by simp)
      · rw [h1.2] at h; exact absurd h (by simp)
  · constructor
    · intro h; exact absurd h (by simp)
    · rintro ⟨-, hsemi, -⟩
      rw [← mem_pyRstripSemi_iff] at hsemi
      exact absurd ((char_contains_iff _ _).mp h2) hsemi
  · have h1' : ("select".data.isPrefixOf (pyLower (pyStrip sql)) ||
        "with".data.isPrefixOf (pyLower (pyStrip sql))) = true := by
      cases hb : ("select".data.isPrefixOf (pyLower (pyStrip sql)) ||
          "with".data.isPrefixOf (pyLower (pyStrip sql))) with
      | false => exact absurd (by rw [hb]; rfl) h1
      | true => rfl
    cases hf : SQL_BLOCKLIST.find? (fun tok =>
        contains_blocked_sql_token (pyLower (pyStrip sql)) tok) with
    | some tok =>
      constructor
      · intro h; exact absurd h (by simp)
      · rintro ⟨-, -, hno⟩
        exfalso
        exact hno tok (List.mem_of_find?_eq_some hf)
          ((contains_blocked_iff _ _).mp (List.find?_some hf))
    | none =>
      simp only [true_iff]
      refine ⟨?_, ?_, ?_⟩
      · rcases Bool.or_eq_true_iff.mp h1' with h | h
        · exact Or.inl (List.isPrefixOf_iff_prefix.mp h)
        · exact Or.inr (List.isPrefixOf_iff_prefix.mp h)
      · rw [← mem_pyRstripSemi_iff]
        intro hmem
        exact h2 ((char_contains_iff _ _).mpr hmem)
      · intro tok hmem hocc
        have := List.find?_eq_none.mp hf tok hmem
        exact this ((contains_blocked_iff _ _).mpr hocc)

/-- ASCII model of case-insensitive character comparison under `(?i)`. -/
def ciEq (a b : Char) : Bool := a.toLower = b.toLower

/-- Match the literal `pat` case-insensitively at the head of `s`,
returning the remaining string on success. -/
def ciAfter : Str → Str → Option Str
  | [], s => some s
  | _ :: _, [] => none
  | p :: ps, c :: cs => if ciEq p c then ciAfter ps cs else none

/-- Consume `\s*\.\s*` at the head of `s`, returning how many characters
were consumed.  Because `.` is not whitespace, the greedy scan needs no
backtracking. -/
def matchDotTail (s : Str) : Option Nat :=
  match s.dropWhile isPySpace with
  | '.' :: rest =>
    some ((s.takeWhile isPySpace).length + 1 + (rest.takeWhile isPySpace).length)
  | _ => none

/-- Match the first pattern of `normalize_sql_for_dataset`,
`(?i)"<dataset_id>"\s*\.\s*`, at the head of `s`; returns the match
length. -/
def matchQuoted (d : Str) (s : Str) : Option Nat :=
  match s with
  | '"' :: s1 =>
    match ciAfter d s1 with
    | some ('"' :: s2) =>
      match matchDotTail s2 with
      | some k => some (d.length + 2 + k)
      | none => none
    | _ => none
  | _ => none

/-- The regex class `\w` used by `\b` (ASCII model). -/
def isRegexWord (c : Char) : Bool := c.isAlphanum || c = '_'

/-- Wordness of an optional character (`none` = string edge = non-word). -/
def wordOpt : Option Char → Bool
  | none => false
  | some c => isRegexWord c

/-- Match the second pattern of `normalize_sql_for_dataset`,
`(?i)\b<dataset_id>\s*\.\s*`, at the current position, where `prev` is the
character just before the position in the original string. -/
def matchBare (d : Str) (prev : Option Char) (s : Str) : Option Nat :=
  if wordOpt prev = wordOpt s.head? then none
  else
    match ciAfter d s with
    | some s2 =>
      match matchDotTail s2 with
      | some k => some (d.length + k)
      | none => none
    | none => none

/-- The `re.sub(pattern1, "", sql)` scan: leftmost-first, non-overlapping,
resuming after each match.  `fuel` bounds the number of steps (it is
initialised to the string length, which always suffices) so that the
function is structurally recursive and kernel-reducible. -/
def subQuotedFuel (d : Str) : Nat → Str → Str
  | 0, _ => []
  | _, [] => []
  | fuel + 1, c :: rest =>
    match matchQuoted d (c :: rest) with
    | some k => subQuotedFuel d fuel (rest.drop (k - 1))
    | none => c :: subQuotedFuel d fuel rest

/-- Removal of every match of `(?i)"<id>"\s*\.\s*`. -/
def subQuoted (d : Str) (s : Str) : Str := subQuotedFuel d s.length s

/-- The `re.sub(pattern2, "", sql)` scan.  `\b` consults the original
string, so the character preceding the current position in the original
string is threaded through as `prev`. -/
def subBareFuel (d : Str) : Nat → Option Char → Str → Str
  | 0, _, _ => []
  | _, _, [] => []
  | fuel + 1, prev, c :: rest =>
    match matchBare d prev (c :: rest) with
    | some k =>
      subBareFuel d fuel (some ((c :: rest).getD (k - 1) c)) (rest.drop (k - 1))
    | none => c :: subBareFuel d fuel (some c) rest

/-- Removal of every match of `(?i)\b<id>\s*\.\s*`. -/
def subBare (d : Str) (s : Str) : Str := subBareFuel d s.length none s

/-- Embedding of `normalize_sql_for_dataset(sql, dataset_id)` from
`app/validators/sql_policy.py`: first remove `"<id>"\s*\.\s*`, then remove
`\b<id>\s*\.\s*`, both case-insensitively. -/
def normalize_sql_for_dataset (sql dataset_id : Str) : Str :=
  subBare dataset_id (subQuoted dataset_id sql)

example : normalize_sql_for_dataset "SELECT COUNT(*) FROM support.tickets".data "support".data
    = "SELECT COUNT(*) FROM tickets".data := by decide
example : normalize_sql_for_dataset "SELECT * FROM \"support\".tickets".data "support".data
    = "SELECT * FROM tickets".data := by decide
example : normalize_sql_for_dataset "SELECT * FROM supportx.tickets".data "support".data
    = "SELECT * FROM supportx.tickets".data := by decide
example : normalize_sql_for_dataset "d d. .".data "d".data = "d .".data := by decide

/-- The literal `d` matches case-insensitively at the head of `s`. -/
def ciMatchesAt (d s : Str) : Bool := (ciAfter d s).isSome

/-- The literal `d` occurs case-insensitively somewhere in `s`. -/
def ciOccurs (d : Str) : Str → Bool
  | [] => ciMatchesAt d []
  | c :: rest => ciMatchesAt d (c :: rest) || ciOccurs d rest

theorem ciOccurs_of_ciMatchesAt {d s : Str} (h : ciMatchesAt d s = true) :
    ciOccurs d s = true := by
  cases s <;> simp [ciOccurs, h]

theorem matchQuoted_occurs {d s : Str} {k : Nat}
    (h : matchQuoted d s = some k) : ciOccurs d s = true := by
  unfold matchQuoted at h
  split at h
  next s1 =>
    split at h
    next s2 heq =>
      have hmat : ciMatchesAt d s1 = true := by simp [ciMatchesAt, heq]
      simp [ciOccurs, ciOccurs_of_ciMatchesAt hmat]
    next => exact absurd h (by simp)
  next => exact absurd h (by simp)

theorem matchBare_occurs {d : Str} {prev : Option Char} {s : Str} {k : Nat}
    (h : matchBare d prev s = some k) : ciOccurs d s = true := by
  unfold matchBare at h
  split at h
  · exact absurd h (by simp)
  · split at h
    next s2 heq =>
      exact ciOccurs_of_ciMatchesAt (by simp [ciMatchesAt, heq])
    next => exact absurd h (by simp)

theorem ciOccurs_tail {d : Str} {c : Char} {rest : Str}
    (h : ciOccurs d (c :: rest) = false) : ciOccurs d rest = false := by
  simp only [ciOccurs, Bool.or_eq_false_iff] at h
  exact h.2

theorem subQuotedFuel_eq_self (d : Str) :
    ∀ fuel s, s.length ≤ fuel → ciOccurs d s = false →
      subQuotedFuel d fuel s = s := by
  intro fuel
  induction fuel with
  | zero =>
    intro s hs _
    have : s = [] := List.eq_nil_of_length_eq_zero (Nat.le_zero.mp hs)
    subst this; rfl
  | succ n ih =>
    intro s hs h
    cases s with
    | nil => rfl
    | cons c rest =>
      have hm : matchQuoted d (c :: rest) = none := by
        cases hm : matchQuoted d (c :: rest) with
        | none => rfl
        | some k => simp [matchQuoted_occurs hm] at h
      simp only [subQuotedFuel, hm]
      exact congrArg (c :: ·)
        (ih rest (Nat.le_of_succ_le_succ hs) (ciOccurs_tail h))

theorem subBareFuel_eq_self (d : Str) :
    ∀ fuel prev s, s.length ≤ fuel → ciOccurs d s = false →
      subBareFuel d fuel prev s = s := by
  intro fuel
  induction fuel with
  | zero =>
    intro prev s hs _
    have : s = [] := List.eq_nil_of_length_eq_zero (Nat.le_zero.mp hs)
    subst this; rfl
  | succ n ih =>
    intro prev s hs h
    cases s with
    | nil => rfl
    | cons c rest =>
      have hm : matchBare d prev (c :: rest) = none := by
        cases hm : matchBare d prev (c :: rest) with
        | none => rfl
        | some k => simp [matchBare_occurs hm] at h
      simp only [subBareFuel, hm]
      exact congrArg (c :: ·)
        (ih (some c) rest (Nat.le_of_succ_le_succ hs) (ciOccurs_tail h))

/-- Claim C8 counterexample: `normalize_sql_for_dataset` is not idempotent.
With dataset id `d` and input `"d d. ."`, one application yields `"d ."`
(the removal creates a fresh `d\s*\.` adjacency) and a second application
yields `""`. -/
theorem c8_counterexample :
    ¬ (normalize_sql_for_dataset
          (normalize_sql_for_dataset "d d. .".data "d".data) "d".data
        = normalize_sql_for_dataset "d d. .".data "d".data) := by decide

/-- Claim C8 (amended): normalization is idempotent whenever the dataset id
does not occur (ASCII-case-insensitively) in the once-normalized string; in
general a removal can create a fresh match and a second application then
removes more (see the counterexample). -/
theorem c8_normalize_idempotent_of_id_absent (sql d : Str)
    (h : ciOccurs d (normalize_sql_for_dataset sql d) = false) :
    normalize_sql_for_dataset (normalize_sql_for_dataset sql d) d
      = normalize_sql_for_dataset sql d := by
  conv_lhs => rw [normalize_sql_for_dataset]
  rw [subQuoted, subQuotedFuel_eq_self d _ _ (le_refl _) h,
    subBare, subBareFuel_eq_self d _ _ _ (le_refl _) h]

/-- Witness for the amended C8 theorem at a realistic input. -/
theorem c8_witness :
    ciOccurs "support".data
        (normalize_sql_for_dataset
          "SELECT COUNT(*) FROM support.tickets".data "support".data) = false
    ∧ normalize_sql_for_dataset
        (normalize_sql_for_dataset
          "SELECT COUNT(*) FROM support.tickets".data "support".data)
        "support".data
      = normalize_sql_for_dataset
          "SELECT COUNT(*) FROM support.tickets".data "support".data :=
  ⟨by decide, c8_normalize_idempotent_of_id_absent _ _ (by decide)⟩

/-- Filter operators (`FilterOperator` in `app/models/query_plan.py`).
`in` is a Lean keyword, so that operator is named `inOp`. -/
inductive FilterOp where
  | eq | ne | lt | lte | gt | gte | inOp | between
  | contains | startswith | endswith | is_null | is_not_null
deriving DecidableEq

/-- The `.value` string of each `FilterOperator` member. -/
def FilterOp.value : FilterOp → Str
  | .eq => "=".data
  | .ne => "!=".data
  | .lt => "<".data
  | .lte => "<=".data
  | .gt => ">".data
  | .gte => ">=".data
  | .inOp => "in".data
  | .between => "between".data
  | .contains => "contains".data
  | .startswith => "startswith".data
  | .endswith => "endswith".data
  | .is_null => "is_null".data
  | .is_not_null => "is_not_null".data

/-- Python values storable in `Filter.value`
(`Optional[Union[str, int, float, bool, List[Any]]]`; floats are not
modelled — no claim depends on them). -/
inductive PyVal where
  | vstr (s : Str)
  | vint (n : Int)
  | vbool (b : Bool)
  | vlist (l : List PyVal)

/-- `isinstance(v, list)` on an optional value. -/
def isPyList : Option PyVal → Bool
  | some (PyVal.vlist _) => true
  | _ => false

/-- `isinstance(v, list) and len(v) == 2` on an optional value. -/
def isPyList2 : Option PyVal → Bool
  | some (PyVal.vlist l) => decide (l.length = 2)
  | _ => false

/-- A single filter condition (`Filter` in `app/models/query_plan.py`),
namespaced because Mathlib already declares an order-theoretic `Filter`. -/
structure App.Filter where
  column : Str
  op : FilterOp
  value : Option PyVal

/-- Embedding of the pydantic model validator
`Filter.validate_operator_value`: `none` on success, otherwise the
`ValueError` message. -/
def App.Filter.validate_operator_value (f : App.Filter) : Option Str :=
  let nullCheck : Option Str :=
    if f.op = FilterOp.is_null ∨ f.op = FilterOp.is_not_null then
      if f.value.isSome then
        some ("Operator ".data ++ f.op.value ++ " should not have a value".data)
      else none
    else
      if f.value.isNone then
        some ("Operator ".data ++ f.op.value ++ " requires a value".data)
      else none
  match nullCheck with
  | some e => some e
  | none =>
    if f.op = FilterOp.inOp && !isPyList f.value then
      some "Operator 'in' requires a list value".data
    else if f.op = FilterOp.between && !isPyList2 f.value then
      some "Operator 'between' requires a list of exactly 2 values".data
    else none

/-- A column selection (`SelectColumn`). -/
structure SelectColumn where
  column : Option Str
  expr : Option Str
  «alias» : Option Str
deriving DecidableEq

/-- Python truthiness of an `Optional[str]` (`None` and `""` are falsy). -/
def optStrTruthy : Option Str → Bool
  | some s => !s.isEmpty
  | none => false

/-- Embedding of `SelectColumn.validate_column_or_expr`. -/
def SelectColumn.validate_column_or_expr (c : SelectColumn) : Option Str :=
  if !optStrTruthy c.column && !optStrTruthy c.expr then
    some "Either 'column' or 'expr' must be provided".data
  else none

/-- Aggregation functions (`AggregationFunction`). -/
inductive AggFunc where
  | count | count_distinct | sum | avg | min | max
deriving DecidableEq

/-- The `.value` string of each `AggregationFunction` member. -/
def AggFunc.value : AggFunc → Str
  | .count => "count".data
  | .count_distinct => "count_distinct".data
  | .sum => "sum".data
  | .avg => "avg".data
  | .min => "min".data
  | .max => "max".data

/-- An aggregation (`Aggregation`). -/
structure Aggregation where
  func : AggFunc
  column : Str
  «alias» : Str
deriving DecidableEq

/-- An item of `QueryPlan.select` (`Union[SelectColumn, Aggregation]`). -/
inductive SelectItem where
  | col (c : SelectColumn)
  | agg (a : Aggregation)
deriving DecidableEq

/-- Sort direction (`SortDirection`). -/
inductive SortDir where
  | asc | desc
deriving DecidableEq

/-- The `.value` string of each `SortDirection` member. -/
def SortDir.value : SortDir → Str
  | .asc => "asc".data
  | .desc => "desc".data

/-- A sort specification (`OrderBy`). -/
structure OrderBy where
  expr : Str
  direction : SortDir
deriving DecidableEq

/-- The structured query plan (`QueryPlan`). -/
structure QueryPlan where
  dataset_id : Str
  table : Str
  select : Option (List SelectItem)
  filters : Option (List App.Filter)
  group_by : Option (List Str)
  order_by : Option (List OrderBy)
  limit : Option Int
  notes : Option Str

/-- Embedding of the pydantic validator `QueryPlan.validate_aggregations`. -/
def QueryPlan.validate_aggregations (p : QueryPlan) : Bool :=
  match p.select with
  | none => true
  | some sel =>
    if sel.isEmpty then true
    else
      let has_agg := sel.any fun it =>
        match it with | .agg _ => true | _ => false
      let has_simple := sel.any fun it =>
        match it with | .col _ => true | _ => false
      if has_agg && has_simple then
        let simple_columns := sel.filterMap fun it =>
          match it with
          | .col c => if optStrTruthy c.column then c.column else none
          | _ => none
        match p.group_by with
        | none => false
        | some g =>
          !g.isEmpty && simple_columns.all fun col => g.contains col
      else true

/-- Conjunction of every pydantic validation on `QueryPlan`: the field
constraint on `limit`, non-empty `select` when present, each
`SelectColumn`'s column-or-expr check, the aggregation/group-by rule, and
each filter's operator/value-shape check. -/
def QueryPlan.valid (p : QueryPlan) : Bool :=
  (match p.limit with | none => true | some n => 1 ≤ n && n ≤ 1000)
    && (match p.select with | none => true | some l => !l.isEmpty)
    && (match p.select with
        | none => true
        | some l => l.all fun it =>
            match it with
            | .col c => (c.validate_column_or_expr).isNone
            | .agg _ => true)
    && p.validate_aggregations
    && (match p.filters with
        | none => true
        | some fs => fs.all fun f => (f.validate_operator_value).isNone)

deriving instance DecidableEq for Except

/-- ASCII model of `str.isalnum` (CPython additionally accepts non-ASCII
Unicode alphanumerics; every concrete input in this file is ASCII, where
the two agree). -/
def py_isalnum (c : Char) : Bool := c.isAlphanum

/-- Model of `identifier.strip('"')`: remove leading and trailing double
quotes. -/
def stripQuotes (s : Str) : Str :=
  ((s.dropWhile (fun c => c = '"')).reverse.dropWhile (fun c => c = '"')).reverse

/-- Decimal digit string of a natural number; `fuel` makes the recursion
structural (`n + 1` steps always suffice). -/
def natStrAux : Nat → Nat → Str
  | 0, _ => []
  | fuel + 1, n =>
    if n < 10 then [Char.ofNat (48 + n)]
    else natStrAux fuel (n / 10) ++ [Char.ofNat (48 + n % 10)]

/-- Decimal digit string of a natural number. -/
def natStr (n : Nat) : Str := natStrAux (n + 1) n

/-- Model of Python `str(i)` on an int. -/
def intStr (n : Int) : Str :=
  if n < 0 then '-' :: natStr n.natAbs else natStr n.natAbs

/-- Sequential effectful map over `Except` (the semantics of the Python
list comprehensions / loops in the compiler). -/
def exceptMapM {α β : Type} (f : α → Except Str β) : List α → Except Str (List β)
  | [] => Except.ok []
  | x :: xs => do
    let y ← f x
    let ys ← exceptMapM f xs
    Except.ok (y :: ys)

namespace QueryPlanCompiler

/-- Embedding of `QueryPlanCompiler._escape_identifier`: strip surrounding
double quotes, require every remaining character to satisfy
`c.isalnum() or c == '_'`, and wrap in double quotes. -/
def escape_identifier (identifier : Str) : Except Str Str :=
  let id2 := stripQuotes identifier
  if id2.all (fun c => py_isalnum c || c = '_') then
    Except.ok ('"' :: id2 ++ ['"'])
  else
    Except.error ("Invalid identifier: ".data ++ id2 ++
      ". Only alphanumeric and underscore allowed.".data)

/-- The `value.replace("'", "''")` escaping of `_format_value`. -/
def escQuoteStr (s : Str) : Str :=
  (s.map fun c => if c = '\'' then ['\'', '\''] else [c]).flatten

/-- Embedding of `QueryPlanCompiler._format_value` (floats omitted; an
argument of `none` models Python `None`). -/
def format_value : Option PyVal → Except Str Str
  | none => Except.ok "NULL".data
  | some (PyVal.vbool b) =>
    Except.ok (if b then "TRUE".data else "FALSE".data)
  | some (PyVal.vint n) => Except.ok (intStr n)
  | some (PyVal.vstr s) => Except.ok ('\'' :: escQuoteStr s ++ ['\''])
  | some (PyVal.vlist _) => Except.error "Unsupported value type: list".data

/-- Embedding of `QueryPlanCompiler._escape_like_pattern`: escape `%`, `_`
and `'` in a LIKE pattern. -/
def escape_like_pattern (p : Str) : Str :=
  (p.map fun c =>
    if c = '%' then ['\\', '%']
    else if c = '_' then ['\\', '_']
    else if c = '\'' then ['\'', '\''] else [c]).flatten

mutual
/-- CPython `repr` of a value inside a list display (strings quoted).  Only
the common single-quote case is rendered; no claim evaluates it. -/
def pyReprInner : PyVal → Str
  | .vstr s => '\'' :: s ++ ['\'']
  | .vint n => intStr n
  | .vbool b => if b then "True".data else "False".data
  | .vlist l => '[' :: pyReprSeq l ++ [']']

/-- Comma-separated sequence of reprs. -/
def pyReprSeq : List PyVal → Str
  | [] => []
  | [v] => pyReprInner v
  | v :: rest => pyReprInner v ++ ", ".data ++ pyReprSeq rest
end

/-- Model of Python `str(value)` as used for LIKE patterns. -/
def pyStr : PyVal → Str
  | .vstr s => s
  | .vint n => intStr n
  | .vbool b => if b then "True".data else "False".data
  | .vlist l => '[' :: pyReprSeq l ++ [']']

/-- Model of `str(f.value)` where the stored value may be `None`. -/
def pyStrOpt : Option PyVal → Str
  | none => "None".data
  | some v => pyStr v

/-- Embedding of `QueryPlanCompiler._build_filter`. -/
def build_filter (f : App.Filter) : Except Str Str := do
  let column ← escape_identifier f.column
  match f.op with
  | .is_null => Except.ok (column ++ " IS NULL".data)
  | .is_not_null => Except.ok (column ++ " IS NOT NULL".data)
  | .eq => do
    let v ← format_value f.value
    Except.ok (column ++ " = ".data ++ v)
  | .ne => do
    let v ← format_value f.value
    Except.ok (column ++ " != ".data ++ v)
  | .lt => do
    let v ← format_value f.value
    Except.ok (column ++ " < ".data ++ v)
  | .lte => do
    let v ← format_value f.value
    Except.ok (column ++ " <= ".data ++ v)
  | .gt => do
    let v ← format_value f.value
    Except.ok (column ++ " > ".data ++ v)
  | .gte => do
    let v ← format_value f.value
    Except.ok (column ++ " >= ".data ++ v)
  | .inOp =>
    match f.value with
    | some (PyVal.vlist l) => do
      let vs ← exceptMapM (fun v => format_value (some v)) l
      Except.ok (column ++ " IN (".data ++ List.intercalate ", ".data vs ++ ")".data)
    | some (PyVal.vstr s) => do
      -- Python iterates the characters of a string value
      let vs ← exceptMapM (fun c => format_value (some (PyVal.vstr [c]))) s
      Except.ok (column ++ " IN (".data ++ List.intercalate ", ".data vs ++ ")".data)
    | _ => Except.error "TypeError: filter value is not iterable".data
  | .between =>
    match f.value with
    | some (PyVal.vlist (a :: b :: _)) => do
      let lo ← format_value (some a)
      let hi ← format_value (some b)
      Except.ok (column ++ " BETWEEN ".data ++ lo ++ " AND ".data ++ hi)
    | some (PyVal.vstr (a :: b :: _)) => do
      -- Python subscripting of a string value yields 1-character strings
      let lo ← format_value (some (PyVal.vstr [a]))
      let hi ← format_value (some (PyVal.vstr [b]))
      Except.ok (column ++ " BETWEEN ".data ++ lo ++ " AND ".data ++ hi)
    | _ => Except.error "TypeError: filter value is not subscriptable".data
  | .contains =>
    let pat := escape_like_pattern (pyStrOpt f.value)
    Except.ok (column ++ " LIKE '%".data ++ pat ++ "%'".data)
  | .startswith =>
    let pat := escape_like_pattern (pyStrOpt f.value)
    Except.ok (column ++ " LIKE '".data ++ pat ++ "%'".data)
  | .endswith =>
    let pat := escape_like_pattern (pyStrOpt f.value)
    Except.ok (column ++ " LIKE '%".data ++ pat ++ "'".data)

/-- Embedding of `QueryPlanCompiler._build_aggregation`. -/
def build_aggregation (a : Aggregation) : Except Str Str := do
  let func := (a.func.value).map Char.toUpper
  let column ← escape_identifier a.column
  let al ← escape_identifier a.«alias»
  if func = "COUNT_DISTINCT".data then
    Except.ok ("COUNT(DISTINCT ".data ++ column ++ ") AS ".data ++ al)
  else
    Except.ok (func ++ "(".data ++ column ++ ") AS ".data ++ al)

/-- One `SelectColumn` of `_build_select`: a truthy `column` is escaped
(with optional escaped alias); otherwise a truthy `expr` is embedded
verbatim (with optional escaped alias); otherwise the item contributes
nothing. -/
def build_select_col (c : SelectColumn) : Except Str (Option Str) :=
  if optStrTruthy c.column then do
    let col ← escape_identifier (c.column.getD [])
    if optStrTruthy c.«alias» then do
      let al ← escape_identifier (c.«alias».getD [])
      Except.ok (some (col ++ " AS ".data ++ al))
    else Except.ok (some col)
  else if optStrTruthy c.expr then
    let e := c.expr.getD []
    if optStrTruthy c.«alias» then do
      let al ← escape_identifier (c.«alias».getD [])
      Except.ok (some (e ++ " AS ".data ++ al))
    else Except.ok (some e)
  else Except.ok none

/-- Embedding of `QueryPlanCompiler._build_select`. -/
def build_select (p : QueryPlan) : Except Str Str :=
  let sel := p.select.getD []
  if sel.isEmpty then Except.ok "SELECT *".data
  else do
    let cols ← exceptMapM (fun it =>
      match it with
      | SelectItem.col c => build_select_col c
      | SelectItem.agg a => (build_aggregation a).map some) sel
    let cols := cols.filterMap id
    if cols.isEmpty then Except.error "No columns in SELECT clause".data
    else Except.ok ("SELECT\n  ".data ++ List.intercalate ",\n  ".data cols)

/-- Embedding of `QueryPlanCompiler._build_from`. -/
def build_from (p : QueryPlan) : Except Str Str := do
  let table ← escape_identifier p.table
  Except.ok ("FROM ".data ++ table)

/-- Embedding of `QueryPlanCompiler._build_where`. -/
def build_where (p : QueryPlan) : Except Str Str :=
  let fs := p.filters.getD []
  if fs.isEmpty then Except.ok []
  else do
    let conds ← exceptMapM build_filter fs
    Except.ok ("WHERE\n  ".data ++ List.intercalate "\n  AND ".data conds)

/-- Embedding of `QueryPlanCompiler._build_group_by`. -/
def build_group_by (p : QueryPlan) : Except Str Str :=
  let gs := p.group_by.getD []
  if gs.isEmpty then Except.ok []
  else do
    let cols ← exceptMapM escape_identifier gs
    Except.ok ("GROUP BY ".data ++ List.intercalate ", ".data cols)

/-- Embedding of `QueryPlanCompiler._build_order_by`. -/
def build_order_by (p : QueryPlan) : Except Str Str :=
  let os := p.order_by.getD []
  if os.isEmpty then Except.ok []
  else do
    let items ← exceptMapM (fun o => do
      let e ← escape_identifier o.expr
      Except.ok (e ++ [' '] ++ (o.direction.value).map Char.toUpper)) os
    Except.ok ("ORDER BY ".data ++ List.intercalate ", ".data items)

/-- Embedding of `QueryPlanCompiler._build_limit` (always emitted;
default 200). -/
def build_limit (p : QueryPlan) : Str :=
  "LIMIT ".data ++ intStr (p.limit.getD 200)

/-- Embedding of `QueryPlanCompiler.compile`: assemble the clauses joined
by newlines; any inner error is re-wrapped in the `CompilationError`
message of the surrounding `try`. -/
def compile (p : QueryPlan) : Except Str Str :=
  let run : Except Str Str := do
    let selectClause ← build_select p
    let fromClause ← build_from p
    let whereClause ← build_where p
    let groupClause ← build_group_by p
    let orderClause ← build_order_by p
    let parts := [selectClause, fromClause]
      ++ (if whereClause.isEmpty then [] else [whereClause])
      ++ (if groupClause.isEmpty then [] else [groupClause])
      ++ (if orderClause.isEmpty then [] else [orderClause])
      ++ [build_limit p]
    Except.ok (List.intercalate "\n".data parts)
  match run with
  | Except.ok sql => Except.ok sql
  | Except.error e =>
    Except.error ("Failed to compile QueryPlan: ".data ++ e)

end QueryPlanCompiler

example : QueryPlanCompiler.compile
    ⟨"ecommerce".data, "orders".data, none, none, none, none, some 10, none⟩
    = Except.ok "SELECT *\nFROM \"orders\"\nLIMIT 10".data := by decide
example : QueryPlanCompiler.compile
    ⟨"ecommerce".data, "orders".data,
      some [SelectItem.col ⟨some "customer_id".data, none, some "cust_id".data⟩],
      none, none, none, some 200, none⟩
    = Except.ok "SELECT\n  \"customer_id\" AS \"cust_id\"\nFROM \"orders\"\nLIMIT 200".data := by
  decide
example : QueryPlanCompiler.compile
    ⟨"ecommerce".data, "orders".data, none,
      some [⟨"status".data, FilterOp.eq, some (PyVal.vstr "completed".data)⟩],
      none, none, some 200, none⟩
    = Except.ok
        "SELECT *\nFROM \"orders\"\nWHERE\n  \"status\" = 'completed'\nLIMIT 200".data := by
  decide
example : QueryPlanCompiler.compile
    ⟨"e".data, "orders".data, none,
      some [⟨"category".data, FilterOp.inOp,
        some (PyVal.vlist [PyVal.vstr "Electronics".data, PyVal.vstr "Clothing".data])⟩,
        ⟨"price".data, FilterOp.between,
          some (PyVal.vlist [PyVal.vint 10, PyVal.vint 100])⟩],
      none, none, some 200, none⟩
    = Except.ok
        ("SELECT *\nFROM \"orders\"\nWHERE\n  \"category\" IN ('Electronics', 'Clothing')".data
          ++ "\n  AND \"price\" BETWEEN 10 AND 100\nLIMIT 200".data) := by
  decide
example : QueryPlanCompiler.compile
    ⟨"e".data, "order_items".data,
      some [SelectItem.col ⟨some "category".data, none, none⟩,
        SelectItem.agg ⟨AggFunc.sum, "price".data, "total_revenue".data⟩],
      none, some ["category".data], some [⟨"total_revenue".data, SortDir.desc⟩],
      some 20, none⟩
    = Except.ok
        ("SELECT\n  \"category\",\n  SUM(\"price\") AS \"total_revenue\"\nFROM \"order_items\"".data
          ++ "\nGROUP BY \"category\"\nORDER BY \"total_revenue\" DESC\nLIMIT 20".data) := by
  decide
example : QueryPlanCompiler.compile
    ⟨"e".data, "bad; DROP TABLE".data,
      some [SelectItem.col ⟨some "col".data, none, none⟩],
      none, none, none, some 200, none⟩
    = Except.error
        ("Failed to compile QueryPlan: Invalid identifier: bad; DROP TABLE".data
          ++ ". Only alphanumeric and underscore allowed.".data) := by decide
example : QueryPlanCompiler.build_filter
    ⟨"name".data, FilterOp.contains, some (PyVal.vstr "50%_off".data)⟩
    = Except.ok "\"name\" LIKE '%50\\%\\_off%'".data := by decide

/-- The specification's identifier regex `^[A-Za-z_][A-Za-z0-9_]*$`. -/
def matchesIdentRegex (s : Str) : Bool :=
  match s with
  | [] => false
  | c :: rest =>
    (c.isAlpha || c = '_') && rest.all (fun d => d.isAlphanum || d = '_')

/-- Claim C5 counterexample: the compiler accepts the digit-leading
identifier `1abc` (every character is alphanumeric), which the claimed
regex `^[A-Za-z_][A-Za-z0-9_]*$` rejects — so acceptance is not "exactly
when" the regex matches. -/
theorem c5_counterexample :
    QueryPlanCompiler.escape_identifier "1abc".data
        = Except.ok "\"1abc\"".data
      ∧ matchesIdentRegex "1abc".data = false := by decide

/-- Claim C5 (amended): `_escape_identifier` first strips surrounding
double quotes and then accepts exactly the strings whose remaining
characters all satisfy `c.isalnum() or c == '_'`, quoting the result in
double quotes; any other string raises a `CompilationError`.  Unlike the
claimed regex, this accepts digit-leading identifiers and the empty
identifier (and, in CPython, non-ASCII alphanumerics). -/
theorem c5_escape_identifier_iff (identifier : Str) :
    (QueryPlanCompiler.escape_identifier identifier
        = Except.ok ('"' :: stripQuotes identifier ++ ['"']))
      ↔ ∀ c ∈ stripQuotes identifier, (py_isalnum c || c = '_') = true := by
  have hrw : QueryPlanCompiler.escape_identifier identifier =
      if ((stripQuotes identifier).all fun c => py_isalnum c || decide (c = '_')) = true
      then Except.ok ('"' :: stripQuotes identifier ++ ['"'])
      else Except.error ("Invalid identifier: ".data ++ stripQuotes identifier ++
        ". Only alphanumeric and underscore allowed.".data) := rfl
  rw [hrw]
  split_ifs with h
  · exact ⟨fun _ => List.all_eq_true.mp h, fun _ => rfl⟩
  · constructor
    · intro hx; exact absurd hx (by simp)
    · intro hall; exact absurd (List.all_eq_true.mpr hall) h

/-- Claim C7 counterexample: the validator accepts an `in` filter whose
value is the empty list (the claim requires a non-empty list), and accepts
an `=` filter whose value is a list (the claim requires a scalar). -/
theorem c7_counterexample :
    App.Filter.validate_operator_value
        ⟨"c".data, FilterOp.inOp, some (PyVal.vlist [])⟩ = none
      ∧ App.Filter.validate_operator_value
          ⟨"c".data, FilterOp.eq,
            some (PyVal.vlist [PyVal.vint 1, PyVal.vint 2])⟩ = none := by
  decide

/-- Claim C7 (amended): a `between` filter is accepted iff its value is a
list of exactly two elements; an `in` filter is accepted iff its value is a
list (possibly empty); `is_null`/`is_not_null` are accepted iff no value is
present; every other operator is accepted iff some value (of any shape,
scalar or list) is present. -/
theorem c7_filter_value_shape_iff (f : App.Filter) :
    f.validate_operator_value = none ↔
      (if f.op = FilterOp.is_null ∨ f.op = FilterOp.is_not_null then
        f.value = none
      else if f.op = FilterOp.inOp then isPyList f.value = true
      else if f.op = FilterOp.between then isPyList2 f.value = true
      else f.value ≠ none) := by
  rcases f with ⟨col, op, v⟩
  cases op <;>
    rcases v with _ | (s | n | b | l) <;>
    simp [App.Filter.validate_operator_value, isPyList, isPyList2]

/-- Claim C10: a query plan whose select item carries `expr` (and no
truthy `column`) has the expr text embedded verbatim in the compiled
SELECT clause — no identifier validation and no escaping is applied to it
(only a present alias would be validated), for arbitrary non-empty expr
text. -/
theorem c10_expr_embedded_verbatim (e : Str) (he : e ≠ []) :
    QueryPlanCompiler.compile
        ⟨"d".data, "t".data, some [SelectItem.col ⟨none, some e, none⟩],
          none, none, none, some 200, none⟩
      = Except.ok ("SELECT\n  ".data ++ e ++ "\nFROM \"t\"\nLIMIT 200".data) := by
  have hne : e.isEmpty = false := by
    cases e with
    | nil => exact absurd rfl he
    | cons c cs => rfl
  have h200 : intStr 200 = "200".data := by decide
  simp [QueryPlanCompiler.compile, QueryPlanCompiler.build_select,
    QueryPlanCompiler.build_select_col, QueryPlanCompiler.build_from,
    QueryPlanCompiler.build_where, QueryPlanCompiler.build_group_by,
    QueryPlanCompiler.build_order_by, QueryPlanCompiler.build_limit,
    QueryPlanCompiler.escape_identifier, stripQuotes, py_isalnum,
    optStrTruthy, hne, h200, List.intercalate, List.intersperse,
    exceptMapM, List.filterMap, Bind.bind, Except.bind,
    Pure.pure, Except.pure]

/-- Witness for C10 at an expr containing a blocked keyword, quotes and a
semicolon: the compiler embeds it verbatim. -/
theorem c10_witness :
    ("count(*); drop".data : Str) ≠ [] ∧
      QueryPlanCompiler.compile
          ⟨"d".data, "t".data,
            some [SelectItem.col ⟨none, some "count(*); drop".data, none⟩],
            none, none, none, some 200, none⟩
        = Except.ok ("SELECT\n  ".data ++ "count(*); drop".data ++
            "\nFROM \"t\"\nLIMIT 200".data) :=
  ⟨by decide, c10_expr_embedded_verbatim "count(*); drop".data (by decide)⟩

/-- Claim C2 counterexample: a plan that passes QueryPlan validation and
whose filter value is the string `drop` compiles successfully, but the
compiled SQL is rejected by `validate_sql_policy` — the word-boundary
regex treats the single quotes around the literal as non-word characters,
so the blocked token matches inside the quoted string. -/
theorem c2_counterexample :
    QueryPlan.valid
        ⟨"e".data, "t".data, none,
          some [⟨"c".data, FilterOp.eq, some (PyVal.vstr "drop".data)⟩],
          none, none, some 200, none⟩ = true
      ∧ QueryPlanCompiler.compile
          ⟨"e".data, "t".data, none,
            some [⟨"c".data, FilterOp.eq, some (PyVal.vstr "drop".data)⟩],
            none, none, some 200, none⟩
        = Except.ok "SELECT *\nFROM \"t\"\nWHERE\n  \"c\" = 'drop'\nLIMIT 200".data
      ∧ validate_sql_policy
          "SELECT *\nFROM \"t\"\nWHERE\n  \"c\" = 'drop'\nLIMIT 200".data
        = some "SQL contains blocked token: drop".data := by decide

/-- Whether the first character of `s` is a `[a-z0-9_]` word character. -/
def headWord (s : Str) : Bool :=
  match s.head? with
  | some c => isWordChar c
  | none => false

/-- Whether the last character of `s` is a word character. -/
def lastWord (s : Str) : Bool :=
  match s.getLast? with
  | some c => isWordChar c
  | none => false

/-- Boundary check on the lowercase form (used when concatenating SQL
fragments). -/
def headIsWordL (s : Str) : Bool := headWord (pyLower s)

/-- Boundary check on the lowercase form. -/
def lastIsWordL (s : Str) : Bool := lastWord (pyLower s)

/-- A policy-clean SQL fragment: no semicolon, and no blocked token occurs
as a whole word in its lowercase form. -/
def Frag (s : Str) : Prop :=
  ';' ∉ s ∧ ∀ tok ∈ SQL_BLOCKLIST, ¬ WholeWordOccurs tok (pyLower s)

/-- Decidable check for `Frag`. -/
def fragB (s : Str) : Bool :=
  !s.contains ';'
    && SQL_BLOCKLIST.all (fun tok => !contains_blocked_sql_token (pyLower s) tok)

theorem frag_of_fragB {s : Str} (h : fragB s = true) : Frag s := by
  unfold fragB at h
  simp only [Bool.and_eq_true, List.all_eq_true, Bool.not_eq_true'] at h
  obtain ⟨h1, h2⟩ := h
  constructor
  · intro hm
    rw [← char_contains_iff] at hm
    rw [h1] at hm
    exact absurd hm (by simp)
  · intro tok hmem hocc
    have := (contains_blocked_iff _ tok).mpr hocc
    rw [h2 tok hmem] at this
    exact absurd this (by simp)

/-- Every blocked token is a non-empty string of word characters. -/
theorem blocklist_tokens_word :
    ∀ tok ∈ SQL_BLOCKLIST, tok ≠ [] ∧ ∀ c ∈ tok, isWordChar c = true := by
  decide

theorem frag_nil : Frag [] := by
  constructor
  · simp
  · rintro tok hmem ⟨pre, suf, heq, -, -⟩
    obtain ⟨hne, -⟩ := blocklist_tokens_word tok hmem
    have h3 : tok = [] := by
      have h4 := heq.symm
      simp only [pyLower, List.map_nil, List.append_eq_nil,
        List.append_assoc] at h4
      tauto
    exact hne h3

theorem mem_of_getLast?_eq {α} {l : List α} {c : α}
    (h : l.getLast? = some c) : c ∈ l := by
  rw [List.getLast?_eq_getElem?] at h
  exact List.getElem?_mem h

/-- Core concatenation safety: a whole-word occurrence cannot appear in
`a ++ b` if none appears in `a` or in `b` and the junction is not
word-to-word (a token is all word characters, so it cannot straddle a
non-word junction, and an occurrence touching the junction from one side
was already a whole-word occurrence in that side alone). -/
theorem not_wwocc_append {tok a b : Str}
    (hw : ∀ c ∈ tok, isWordChar c = true)
    (ha : ¬ WholeWordOccurs tok a) (hb : ¬ WholeWordOccurs tok b)
    (hbd : lastWord a = false ∨ headWord b = false) :
    ¬ WholeWordOccurs tok (a ++ b) := by
  rintro ⟨pre, suf, heq, hl, hr⟩
  rcases List.append_eq_append_iff.mp heq with ⟨a', ha1, ha2⟩ | ⟨c', hc1, hc2⟩
  · rcases List.append_eq_append_iff.mp ha1 with ⟨x, hx1, hx2⟩ | ⟨y, hy1, hy2⟩
    · rcases List.eq_nil_or_concat a' with rfl | ⟨a'', za, rfl⟩
      · apply ha
        refine ⟨pre, [], ?_, hl, (by intro c hc; cases hc)⟩
        rw [hx1, hx2, List.append_nil, List.append_nil]
      · rcases List.eq_nil_or_concat x with rfl | ⟨x', zx, rfl⟩
        · apply hb
          refine ⟨[], suf, ?_, (by intro c hc; cases hc), hr⟩
          rw [ha2, List.nil_append]
          rw [List.nil_append] at hx2
          rw [hx2]
        · rcases hbd with hba | hbb
          · have hlast : a.getLast? = some zx := by
              rw [hx1, List.getLast?_append_of_ne_nil _ (by simp)]
              simp
            have hzx : isWordChar zx = true :=
              hw zx (by rw [hx2]; exact List.mem_append_left _ (by simp))
            simp [lastWord, hlast, hzx] at hba
          · obtain ⟨ca, t, hca⟩ : ∃ ca t, a''.concat za = ca :: t := by
              cases h : a''.concat za with
              | nil => exact absurd h (by simp)
              | cons u v => exact ⟨u, v, rfl⟩
            have hhead : b.head? = some ca := by
              rw [ha2, hca]; rfl
            have hmem : ca ∈ tok := by
              rw [hx2, hca]
              exact List.mem_append_right _ (by simp)
            simp [headWord, hhead, hw ca hmem] at hbb
    · apply hb
      refine ⟨y, suf, ?_, ?_, hr⟩
      · rw [ha2, hy2, List.append_assoc]
      · intro c hc
        apply hl c
        rcases List.eq_nil_or_concat y with rfl | ⟨y', zy, rfl⟩
        · cases hc
        · rw [hy1, List.getLast?_append_of_ne_nil _ (by simp)]
          exact hc
  · apply ha
    refine ⟨pre, c', ?_, hl, ?_⟩
    · rw [hc1, List.append_assoc]
    · intro c hc
      apply hr c
      rw [hc2, List.head?_append]
      rw [hc]
      rfl

/-- `Frag` is preserved by concatenation across a non-word junction. -/
theorem Frag.append {a b : Str} (ha : Frag a) (hb : Frag b)
    (hbd : lastIsWordL a = false ∨ headIsWordL b = false) :
    Frag (a ++ b) := by
  constructor
  · intro hm
    rcases List.mem_append.mp hm with h | h
    exacts [ha.1 h, hb.1 h]
  · intro tok hmem
    have hlow : pyLower (a ++ b) = pyLower a ++ pyLower b :=
      List.map_append _ _ _
    rw [hlow]
    exact not_wwocc_append (blocklist_tokens_word tok hmem).2
      (ha.2 tok hmem) (hb.2 tok hmem) hbd

/-- A whole-word occurrence inside a non-word-quoted all-word string must
be the whole string: `tok` occurs whole-word in `q1 ++ w ++ q2` (with `q1`,
`q2` single non-word characters and `w` all word characters) only if
`tok = w`. -/
theorem wwocc_sandwich {q1 q2 : Char} {w tok : Str}
    (hq1 : isWordChar q1 = false) (hq2 : isWordChar q2 = false)
    (hw : ∀ c ∈ w, isWordChar c = true)
    (htok : tok ≠ []) (htw : ∀ c ∈ tok, isWordChar c = true) :
    WholeWordOccurs tok (q1 :: w ++ [q2]) → tok = w := by
  rintro ⟨pre, suf, heq, hl, hr⟩
  cases pre with
  | nil =>
    exfalso
    cases tok with
    | nil => exact htok rfl
    | cons t0 ts =>
      have h0 : q1 = t0 := by
        have := congrArg List.head? heq
        simpa using this
      have : isWordChar t0 = true := htw t0 (by simp)
      rw [← h0, hq1] at this
      cases this
  | cons p0 pre' =>
    have heq2 : w ++ [q2] = pre' ++ tok ++ suf := by
      have := congrArg List.tail heq
      simpa using this
    have hpre' : pre' = [] := by
      rcases List.eq_nil_or_concat pre' with rfl | ⟨ys, y, rfl⟩
      · rfl
      · exfalso
        have hylast : (p0 :: ys.concat y).getLast? = some y := by
          have h9 : p0 :: ys.concat y = (p0 :: ys) ++ [y] := by simp
          rw [h9, List.getLast?_append_of_ne_nil _ (by simp)]
          rfl
        have hyw : isWordChar y = false := hl y hylast
        have hlen : (ys.concat y).length ≤ w.length := by
          have hlenq := congrArg List.length heq2
          simp only [List.length_append, List.length_concat,
            List.length_cons, List.length_nil] at hlenq
          have htl : 1 ≤ tok.length := by
            cases tok with
            | nil => exact absurd rfl htok
            | cons _ _ => simp
          simp only [List.length_concat]
          omega
        have hymem : y ∈ w := by
          have htake : (w ++ [q2]).take (ys.concat y).length
              = (ys.concat y) := by
            rw [heq2, List.append_assoc, List.take_left]
          rw [List.take_append_of_le_length hlen] at htake
          have : y ∈ w.take (ys.concat y).length := by
            rw [htake]; simp
          exact List.take_subset _ _ this
        rw [hw y hymem] at hyw
        cases hyw
    subst hpre'
    rw [List.nil_append] at heq2
    rcases List.eq_nil_or_concat suf with rfl | ⟨s', z, rfl⟩
    · exfalso
      rw [List.append_nil] at heq2
      have : tok.getLast? = some q2 := by
        rw [← heq2, List.getLast?_append_of_ne_nil _ (by simp)]
        simp
      have := htw q2 (mem_of_getLast?_eq this)
      rw [hq2] at this
      cases this
    · have hz : z = q2 := by
        have h5 := congrArg List.getLast? heq2
        rw [List.getLast?_append_of_ne_nil _ (by simp : ([q2] : Str) ≠ []),
          List.concat_eq_append, ← List.append_assoc,
          List.getLast?_append_of_ne_nil _ (by simp : ([z] : Str) ≠ [])]
          at h5
        simpa using h5.symm
      have hwz : w = tok ++ s' := by
        subst hz
        rw [List.concat_eq_append, ← List.append_assoc] at heq2
        exact List.append_cancel_right heq2
      rcases s' with _ | ⟨c0, s''⟩
      · rw [hwz, List.append_nil]
      · exfalso
        have hhead : ((c0 :: s'').concat z).head? = some c0 := by
          simp
        have hc0 : isWordChar c0 = false := hr c0 hhead
        have : c0 ∈ w := by
          rw [hwz]
          exact List.mem_append_right _ (by simp)
        rw [hw c0 this] at hc0
        cases hc0

/-- Identifier-level hypothesis of the amended C2: after quote-stripping
and lowercasing, the identifier consists only of `[a-z0-9_]` word
characters and is not itself a blocked token. -/
def identSafe (id : Str) : Bool :=
  (pyLower (stripQuotes id)).all isWordChar
    && SQL_BLOCKLIST.all (fun tok => decide (pyLower (stripQuotes id) ≠ tok))

theorem frag_quoted_ident {core : Str}
    (hword : ∀ c ∈ pyLower core, isWordChar c = true)
    (hnb : ∀ tok ∈ SQL_BLOCKLIST, pyLower core ≠ tok) :
    Frag ('"' :: core ++ ['"']) := by
  constructor
  · intro hm
    simp only [List.cons_append, List.mem_cons, List.mem_append,
      List.mem_singleton] at hm
    rcases hm with h | h | h
    · exact absurd h (by decide)
    · have h2 : (';' : Char).toLower ∈ pyLower core :=
        List.mem_map_of_mem _ h
      exact absurd (hword _ h2) (by decide)
    · exact absurd h (by decide)
  · intro tok hmem hocc
    have heq : pyLower ('"' :: core ++ ['"'])
        = '"' :: pyLower core ++ ['"'] := by
      simp [pyLower]
    rw [heq] at hocc
    exact hnb tok hmem
      (wwocc_sandwich (by decide) (by decide) hword
        (blocklist_tokens_word tok hmem).1
        (blocklist_tokens_word tok hmem).2 hocc).symm

theorem escape_ok_shape {id q : Str}
    (hok : QueryPlanCompiler.escape_identifier id = Except.ok q) :
    q = '"' :: stripQuotes id ++ ['"'] := by
  have hrw : QueryPlanCompiler.escape_identifier id =
      if ((stripQuotes id).all fun c => py_isalnum c || decide (c = '_')) = true
      then Except.ok ('"' :: stripQuotes id ++ ['"'])
      else Except.error ("Invalid identifier: ".data ++ stripQuotes id ++
        ". Only alphanumeric and underscore allowed.".data) := rfl
  rw [hrw] at hok
  split_ifs at hok
  injection hok with h
  exact h.symm

/-- A successfully escaped identifier with a safe source string is a clean
fragment with non-word first and last characters. -/
theorem frag_escape {id q : Str} (hs : identSafe id = true)
    (hok : QueryPlanCompiler.escape_identifier id = Except.ok q) :
    Frag q ∧ headIsWordL q = false ∧ lastIsWordL q = false := by
  have hq := escape_ok_shape hok
  subst hq
  unfold identSafe at hs
  simp only [Bool.and_eq_true, List.all_eq_true, decide_eq_true_eq] at hs
  obtain ⟨h1, h2⟩ := hs
  refine ⟨frag_quoted_ident h1 h2, ?_, ?_⟩
  · have heq : pyLower ('"' :: stripQuotes id ++ ['"'])
        = '"' :: pyLower (stripQuotes id) ++ ['"'] := by
      simp [pyLower]
    rw [headIsWordL, heq]
    rfl
  · have heq : pyLower ('"' :: stripQuotes id ++ ['"'])
        = ('"' :: pyLower (stripQuotes id)) ++ ['"'] := by
      simp [pyLower]
    rw [lastIsWordL, heq, lastWord,
      List.getLast?_append_of_ne_nil _ (by simp)]
    decide

theorem mem_natStrAux {fuel n : Nat} {c : Char}
    (h : c ∈ natStrAux fuel n) : ∃ d, d < 10 ∧ c = Char.ofNat (48 + d) := by
  induction fuel generalizing n with
  | zero => cases h
  | succ m ih =>
    unfold natStrAux at h
    split_ifs at h with h10
    · simp only [List.mem_singleton] at h
      exact ⟨n, h10, h⟩
    · rcases List.mem_append.mp h with h1 | h2
      · exact ih h1
      · simp only [List.mem_singleton] at h2
        exact ⟨n % 10, Nat.mod_lt _ (by omega), h2⟩

theorem intStr_chars {k : Int} {c : Char} (h : c ∈ intStr k) :
    c = '-' ∨ ∃ d, d < 10 ∧ c = Char.ofNat (48 + d) := by
  unfold intStr natStr at h
  split_ifs at h
  · rcases List.mem_cons.mp h with h | h
    · exact Or.inl h
    · exact Or.inr (mem_natStrAux h)
  · exact Or.inr (mem_natStrAux h)

theorem notLetter_of_intStr {k : Int} {c : Char}
    (h : c ∈ pyLower (intStr k)) : ¬ ('a' ≤ c ∧ c ≤ 'z') := by
  intro hc
  obtain ⟨c0, hc0, rfl⟩ := List.mem_map.mp h
  rcases intStr_chars hc0 with rfl | ⟨d, hd, rfl⟩
  · exact absurd hc (by decide)
  · interval_cases d <;> exact absurd hc (by decide)

theorem blocklist_head_letter :
    ∀ tok ∈ SQL_BLOCKLIST, ∀ c ∈ tok.head?, ('a' ≤ c ∧ c ≤ 'z') := by decide

/-- A rendered integer is a clean fragment: its characters are digits or a
minus sign, and blocked tokens start with a letter. -/
theorem frag_intStr (k : Int) : Frag (intStr k) := by
  constructor
  · intro hm
    rcases intStr_chars hm with h | ⟨d, hd, h⟩
    · exact absurd h (by decide)
    · interval_cases d <;> exact absurd h (by decide)
  · intro tok hmem hocc
    obtain ⟨hne, -⟩ := blocklist_tokens_word tok hmem
    obtain ⟨pre, suf, heq, -, -⟩ := hocc
    obtain ⟨c0, t, rfl⟩ : ∃ c0 t, tok = c0 :: t := by
      cases tok with
      | nil => exact absurd rfl hne
      | cons c0 t => exact ⟨c0, t, rfl⟩
    have hc0 : 'a' ≤ c0 ∧ c0 ≤ 'z' :=
      blocklist_head_letter _ hmem c0 (by rfl)
    have hmem2 : c0 ∈ pyLower (intStr k) := by
      rw [heq]
      exact List.mem_append_left _ (List.mem_append_right _ (by simp))
    exact notLetter_of_intStr hmem2 hc0

theorem lastIsWordL_append {a b : Str} (hb : b ≠ []) :
    lastIsWordL (a ++ b) = lastIsWordL b := by
  unfold lastIsWordL lastWord pyLower
  rw [List.map_append, List.getLast?_append_of_ne_nil]
  simpa using hb

theorem headIsWordL_append {a b : Str} (ha : a ≠ []) :
    headIsWordL (a ++ b) = headIsWordL a := by
  cases a with
  | nil => exact absurd rfl ha
  | cons c t => rfl

theorem intercalate_cons_cons {α} (sep x y : List α) (ys : List (List α)) :
    List.intercalate sep (x :: y :: ys)
      = x ++ sep ++ List.intercalate sep (y :: ys) := by
  simp [List.intercalate, List.intersperse]

/-- Joining clean fragments with a clean non-word separator yields a clean
fragment. -/
theorem frag_intercalate {sep : Str} (hsep : Frag sep)
    (hh : headIsWordL sep = false) (hl : lastIsWordL sep = false)
    (hne : sep ≠ []) :
    ∀ pieces : List Str, (∀ x ∈ pieces, Frag x) →
      Frag (List.intercalate sep pieces)
  | [], _ => by simpa [List.intercalate] using frag_nil
  | [x], hp => by simpa [List.intercalate] using hp x (by simp)
  | x :: y :: ys, hp => by
    rw [intercalate_cons_cons]
    have hrest := frag_intercalate hsep hh hl hne (y :: ys)
      (fun z hz => hp z (List.mem_cons_of_mem _ hz))
    have hxsep : Frag (x ++ sep) :=
      Frag.append (hp x (by simp)) hsep (Or.inr hh)
    refine Frag.append hxsep hrest (Or.inl ?_)
    rw [lastIsWordL_append hne]
    exact hl

theorem exceptMapM_forall {α β : Type} {f : α → Except Str β} :
    ∀ {l : List α} {out : List β}, exceptMapM f l = Except.ok out →
      ∀ b ∈ out, ∃ a ∈ l, f a = Except.ok b := by
  intro l
  induction l with
  | nil =>
    intro out h b hb
    unfold exceptMapM at h
    injection h with h
    subst h
    cases hb
  | cons x xs ih =>
    intro out h b hb
    unfold exceptMapM at h
    cases hfx : f x with
    | error e => rw [hfx] at h; exact absurd h (by simp [Bind.bind, Except.bind])
    | ok y =>
      rw [hfx] at h
      cases hrest : exceptMapM f xs with
      | error e =>
        rw [hrest] at h
        exact absurd h (by simp [Bind.bind, Except.bind])
      | ok ys =>
        rw [hrest] at h
        have hout : out = y :: ys := by
          simpa [Bind.bind, Except.bind, Pure.pure, Except.pure] using h.symm
        subst hout
        rcases List.mem_cons.mp hb with rfl | hb2
        · exact ⟨x, by simp, hfx⟩
        · obtain ⟨a, ha, hfa⟩ := ih hrest b hb2
          exact ⟨a, List.mem_cons_of_mem _ ha, hfa⟩

/-- Safety of a scalar value as rendered by `_format_value`: for strings,
the quoted-and-escaped literal must be a clean fragment; numbers, booleans
and NULL are always clean. -/
def scalarSafe : PyVal → Bool
  | PyVal.vstr s => fragB ('\'' :: QueryPlanCompiler.escQuoteStr s ++ ['\''])
  | PyVal.vint _ => true
  | PyVal.vbool _ => true
  | PyVal.vlist _ => true

/-- Safety of an optional value (`None` renders as `NULL`). -/
def scalarSafeOpt : Option PyVal → Bool
  | none => true
  | some v => scalarSafe v

/-- Per-filter hypothesis of the amended C2: the column is a safe
identifier and every rendered value piece is a clean fragment. -/
def filterSafe (f : App.Filter) : Bool :=
  identSafe f.column &&
    match f.op with
    | FilterOp.contains | FilterOp.startswith | FilterOp.endswith =>
      fragB (QueryPlanCompiler.escape_like_pattern
        (QueryPlanCompiler.pyStrOpt f.value))
    | FilterOp.inOp | FilterOp.between =>
      (match f.value with
       | some (PyVal.vlist l) => l.all scalarSafe
       | some (PyVal.vstr s) => s.all fun c => scalarSafe (PyVal.vstr [c])
       | _ => true)
    | FilterOp.is_null | FilterOp.is_not_null => true
    | _ => scalarSafeOpt f.value

/-- Per-select-item hypothesis of the amended C2. -/
def selectItemSafe : SelectItem → Bool
  | SelectItem.col c =>
    (if optStrTruthy c.column then identSafe (c.column.getD [])
     else fragB (c.expr.getD []))
      && (if optStrTruthy c.«alias» then identSafe (c.«alias».getD [])
          else true)
  | SelectItem.agg a => identSafe a.column && identSafe a.«alias»

theorem frag_format_value {v : Option PyVal} {r : Str}
    (hs : scalarSafeOpt v = true)
    (hok : QueryPlanCompiler.format_value v = Except.ok r) : Frag r := by
  cases v with
  | none =>
    injection hok with h
    subst h
    exact frag_of_fragB (by decide)
  | some pv =>
    cases pv with
    | vstr s =>
      injection hok with h
      subst h
      exact frag_of_fragB hs
    | vint n =>
      injection hok with h
      subst h
      exact frag_intStr n
    | vbool b =>
      cases b with
      | false =>
        injection hok with h
        subst h
        exact frag_of_fragB (by decide)
      | true =>
        injection hok with h
        subst h
        exact frag_of_fragB (by decide)
    | vlist l => exact absurd hok (by simp [QueryPlanCompiler.format_value])

/-- Assembly helper: safe identifier, then a non-word template, then a
clean value fragment. -/
theorem frag_q_tpl_val {q tpl v : Str} (hfq : Frag q)
    (hql : lastIsWordL q = false) (htpl : fragB tpl = true)
    (htl : lastIsWordL tpl = false) (htne : tpl ≠ [])
    (hv : Frag v) : Frag (q ++ tpl ++ v) := by
  have h1 : Frag (q ++ tpl) :=
    Frag.append hfq (frag_of_fragB htpl) (Or.inl hql)
  refine Frag.append h1 hv (Or.inl ?_)
  rw [lastIsWordL_append htne]
  exact htl

theorem frag_build_filter {f : App.Filter} {c : Str}
    (hsafe : filterSafe f = true)
    (hok : QueryPlanCompiler.build_filter f = Except.ok c) : Frag c := by
  unfold QueryPlanCompiler.build_filter at hok
  cases hq : QueryPlanCompiler.escape_identifier f.column with
  | error e =>
    rw [hq] at hok
    exact absurd hok (by simp [Bind.bind, Except.bind])
  | ok q =>
    rw [hq] at hok
    simp only [Bind.bind, Except.bind] at hok
    unfold filterSafe at hsafe
    simp only [Bool.and_eq_true] at hsafe
    obtain ⟨hid, hop⟩ := hsafe
    obtain ⟨hfq, hqh, hql⟩ := frag_escape hid hq
    cases hopc : f.op <;> rw [hopc] at hok hop <;>
      (try dsimp only at hok) <;> (try dsimp only at hop)
    case eq | ne | lt | lte | gt | gte =>
      cases hv : QueryPlanCompiler.format_value f.value with
      | error e => rw [hv] at hok; exact absurd hok (by simp)
      | ok v =>
        rw [hv] at hok
        simp only [Except.ok.injEq] at hok
        subst hok
        exact frag_q_tpl_val hfq hql (by decide) (by decide) (by decide)
          (frag_format_value hop hv)
    case is_null =>
      simp only [Except.ok.injEq] at hok
      subst hok
      exact Frag.append hfq (frag_of_fragB (by decide)) (Or.inl hql)
    case is_not_null =>
      simp only [Except.ok.injEq] at hok
      subst hok
      exact Frag.append hfq (frag_of_fragB (by decide)) (Or.inl hql)
    case contains =>
      simp only [Except.ok.injEq] at hok
      subst hok
      have h1 : Frag (q ++ " LIKE '%".data) :=
        Frag.append hfq (frag_of_fragB (by decide)) (Or.inl hql)
      have h2 : Frag ((q ++ " LIKE '%".data) ++
          QueryPlanCompiler.escape_like_pattern
            (QueryPlanCompiler.pyStrOpt f.value)) := by
        refine Frag.append h1 (frag_of_fragB hop) (Or.inl ?_)
        rw [lastIsWordL_append (by decide : (" LIKE '%".data : Str) ≠ [])]
        decide
      exact Frag.append h2 (frag_of_fragB (by decide)) (Or.inr (by decide))
    case startswith =>
      simp only [Except.ok.injEq] at hok
      subst hok
      have h1 : Frag (q ++ " LIKE '".data) :=
        Frag.append hfq (frag_of_fragB (by decide)) (Or.inl hql)
      have h2 : Frag ((q ++ " LIKE '".data) ++
          QueryPlanCompiler.escape_like_pattern
            (QueryPlanCompiler.pyStrOpt f.value)) := by
        refine Frag.append h1 (frag_of_fragB hop) (Or.inl ?_)
        rw [lastIsWordL_append (by decide : (" LIKE '".data : Str) ≠ [])]
        decide
      exact Frag.append h2 (frag_of_fragB (by decide)) (Or.inr (by decide))
    case endswith =>
      simp only [Except.ok.injEq] at hok
      subst hok
      have h1 : Frag (q ++ " LIKE '%".data) :=
        Frag.append hfq (frag_of_fragB (by decide)) (Or.inl hql)
      have h2 : Frag ((q ++ " LIKE '%".data) ++
          QueryPlanCompiler.escape_like_pattern
            (QueryPlanCompiler.pyStrOpt f.value)) := by
        refine Frag.append h1 (frag_of_fragB hop) (Or.inl ?_)
        rw [lastIsWordL_append (by decide : (" LIKE '%".data : Str) ≠ [])]
        decide
      exact Frag.append h2 (frag_of_fragB (by decide)) (Or.inr (by decide))
    case inOp =>
      cases hval : f.value with
      | none => rw [hval] at hok; exact absurd hok (by simp)
      | some pv =>
        rw [hval] at hok hop
        cases pv with
        | vint n => exact absurd hok (by simp)
        | vbool b => exact absurd hok (by simp)
        | vlist l =>
          dsimp only at hok hop
          cases hm : exceptMapM (fun v => QueryPlanCompiler.format_value (some v)) l with
          | error e => rw [hm] at hok; exact absurd hok (by simp)
          | ok vs =>
            rw [hm] at hok
            simp only [Except.ok.injEq] at hok
            subst hok
            have hvs : ∀ x ∈ vs, Frag x := by
              intro x hx
              obtain ⟨a, hal, hfa⟩ := exceptMapM_forall hm x hx
              have : scalarSafe a = true := List.all_eq_true.mp hop a hal
              exact frag_format_value (by simpa [scalarSafeOpt] using this) hfa
            have hinner : Frag (List.intercalate ", ".data vs) :=
              frag_intercalate (frag_of_fragB (by decide)) (by decide)
                (by decide) (by decide) vs hvs
            have h1 : Frag (q ++ " IN (".data) :=
              Frag.append hfq (frag_of_fragB (by decide)) (Or.inl hql)
            have h2 : Frag ((q ++ " IN (".data) ++ List.intercalate ", ".data vs) := by
              refine Frag.append h1 hinner (Or.inl ?_)
              rw [lastIsWordL_append (by decide : (" IN (".data : Str) ≠ [])]
              decide
            exact Frag.append h2 (frag_of_fragB (by decide)) (Or.inr (by decide))
        | vstr s =>
          dsimp only at hok hop
          cases hm : exceptMapM
              (fun ch => QueryPlanCompiler.format_value (some (PyVal.vstr [ch]))) s with
          | error e => rw [hm] at hok; exact absurd hok (by simp)
          | ok vs =>
            rw [hm] at hok
            simp only [Except.ok.injEq] at hok
            subst hok
            have hvs : ∀ x ∈ vs, Frag x := by
              intro x hx
              obtain ⟨a, hal, hfa⟩ := exceptMapM_forall hm x hx
              have : scalarSafe (PyVal.vstr [a]) = true :=
                List.all_eq_true.mp hop a hal
              exact frag_format_value (by simpa [scalarSafeOpt] using this) hfa
            have hinner : Frag (List.intercalate ", ".data vs) :=
              frag_intercalate (frag_of_fragB (by decide)) (by decide)
                (by decide) (by decide) vs hvs
            have h1 : Frag (q ++ " IN (".data) :=
              Frag.append hfq (frag_of_fragB (by decide)) (Or.inl hql)
            have h2 : Frag ((q ++ " IN (".data) ++ List.intercalate ", ".data vs) := by
              refine Frag.append h1 hinner (Or.inl ?_)
              rw [lastIsWordL_append (by decide : (" IN (".data : Str) ≠ [])]
              decide
            exact Frag.append h2 (frag_of_fragB (by decide)) (Or.inr (by decide))
    case between =>
      cases hval : f.value with
      | none => rw [hval] at hok; exact absurd hok (by simp)
      | some pv =>
        rw [hval] at hok hop
        cases pv with
        | vint n => exact absurd hok (by simp)
        | vbool b => exact absurd hok (by simp)
        | vlist l =>
          match l, hok, hop with
          | [], hok, hop => exact absurd hok (by simp)
          | [a], hok, hop => exact absurd hok (by simp)
          | a :: b :: rest, hok, hop =>
            dsimp only at hok hop
            cases hlo : QueryPlanCompiler.format_value (some a) with
            | error e => rw [hlo] at hok; exact absurd hok (by simp)
            | ok lo =>
              cases hhi : QueryPlanCompiler.format_value (some b) with
              | error e => rw [hlo, hhi] at hok; exact absurd hok (by simp)
              | ok hi =>
                rw [hlo, hhi] at hok
                simp only [Except.ok.injEq] at hok
                subst hok
                simp only [List.all_cons, Bool.and_eq_true] at hop
                have hflo : Frag lo := frag_format_value
                  (by simpa [scalarSafeOpt] using hop.1) hlo
                have hfhi : Frag hi := frag_format_value
                  (by simpa [scalarSafeOpt] using hop.2.1) hhi
                have h1 : Frag (q ++ " BETWEEN ".data ++ lo) :=
                  frag_q_tpl_val hfq hql (by decide) (by decide) (by decide) hflo
                have h2 : Frag ((q ++ " BETWEEN ".data ++ lo) ++ " AND ".data) :=
                  Frag.append h1 (frag_of_fragB (by decide)) (Or.inr (by decide))
                refine Frag.append h2 hfhi (Or.inl ?_)
                rw [lastIsWordL_append (by decide : (" AND ".data : Str) ≠ [])]
                decide
        | vstr s =>
          match s, hok, hop with
          | [], hok, hop => exact absurd hok (by simp)
          | [a], hok, hop => exact absurd hok (by simp)
          | a :: b :: rest, hok, hop =>
            dsimp only at hok hop
            cases hlo : QueryPlanCompiler.format_value (some (PyVal.vstr [a])) with
            | error e => rw [hlo] at hok; exact absurd hok (by simp)
            | ok lo =>
              cases hhi : QueryPlanCompiler.format_value (some (PyVal.vstr [b])) with
              | error e => rw [hlo, hhi] at hok; exact absurd hok (by simp)
              | ok hi =>
                rw [hlo, hhi] at hok
                simp only [Except.ok.injEq] at hok
                subst hok
                simp only [List.all_cons, Bool.and_eq_true] at hop
                have hflo : Frag lo := frag_format_value
                  (by simpa [scalarSafeOpt] using hop.1) hlo
                have hfhi : Frag hi := frag_format_value
                  (by simpa [scalarSafeOpt] using hop.2.1) hhi
                have h1 : Frag (q ++ " BETWEEN ".data ++ lo) :=
                  frag_q_tpl_val hfq hql (by decide) (by decide) (by decide) hflo
                have h2 : Frag ((q ++ " BETWEEN ".data ++ lo) ++ " AND ".data) :=
                  Frag.append h1 (frag_of_fragB (by decide)) (Or.inr (by decide))
                refine Frag.append h2 hfhi (Or.inl ?_)
                rw [lastIsWordL_append (by decide : (" AND ".data : Str) ≠ [])]
                decide

theorem frag_build_select_col {c : SelectColumn} {r : Str}
    (hsafe : selectItemSafe (SelectItem.col c) = true)
    (hok : QueryPlanCompiler.build_select_col c = Except.ok (some r)) :
    Frag r := by
  unfold QueryPlanCompiler.build_select_col at hok
  unfold selectItemSafe at hsafe
  simp only [Bool.and_eq_true] at hsafe
  obtain ⟨hmain, halias⟩ := hsafe
  by_cases hcol : optStrTruthy c.column = true
  · rw [if_pos hcol] at hok hmain
    cases hq : QueryPlanCompiler.escape_identifier (c.column.getD []) with
    | error e =>
      rw [hq] at hok
      exact absurd hok (by simp [Bind.bind, Except.bind])
    | ok q =>
      rw [hq] at hok
      simp only [Bind.bind, Except.bind] at hok
      obtain ⟨hfq, -, hql⟩ := frag_escape hmain hq
      by_cases hal : optStrTruthy c.«alias» = true
      · rw [if_pos hal] at hok halias
        cases ha : QueryPlanCompiler.escape_identifier (c.«alias».getD []) with
        | error e => rw [ha] at hok; exact absurd hok (by simp)
        | ok qa =>
          rw [ha] at hok
          simp only [Except.ok.injEq, Option.some.injEq] at hok
          subst hok
          obtain ⟨hfa, -, -⟩ := frag_escape halias ha
          exact frag_q_tpl_val hfq hql (by decide) (by decide) (by decide) hfa
      · rw [if_neg hal] at hok
        simp only [Except.ok.injEq, Option.some.injEq] at hok
        subst hok
        exact hfq
  · rw [if_neg hcol] at hok hmain
    by_cases hex : optStrTruthy c.expr = true
    · rw [if_pos hex] at hok
      by_cases hal : optStrTruthy c.«alias» = true
      · rw [if_pos hal] at hok halias
        cases ha : QueryPlanCompiler.escape_identifier (c.«alias».getD []) with
        | error e =>
          rw [ha] at hok
          exact absurd hok (by simp [Bind.bind, Except.bind])
        | ok qa =>
          rw [ha] at hok
          simp only [Bind.bind, Except.bind, Except.ok.injEq,
            Option.some.injEq] at hok
          subst hok
          obtain ⟨hfa, -, -⟩ := frag_escape halias ha
          have h1 : Frag (c.expr.getD [] ++ " AS ".data) :=
            Frag.append (frag_of_fragB hmain) (frag_of_fragB (by decide))
              (Or.inr (by decide))
          refine Frag.append h1 hfa (Or.inl ?_)
          rw [lastIsWordL_append (by decide : (" AS ".data : Str) ≠ [])]
          decide
      · rw [if_neg hal] at hok
        simp only [Except.ok.injEq, Option.some.injEq] at hok
        subst hok
        exact frag_of_fragB hmain
    · rw [if_neg hex] at hok
      exact absurd hok (by simp)

theorem frag_agg_shape {fn q qa : Str} (hffn : fragB fn = true)
    (hfq : Frag q) (hql : lastIsWordL q = false) (hfa : Frag qa) :
    Frag (fn ++ "(".data ++ q ++ ") AS ".data ++ qa) := by
  have h1 : Frag (fn ++ "(".data) :=
    Frag.append (frag_of_fragB hffn) (frag_of_fragB (by decide))
      (Or.inr (by decide))
  have h2 : Frag (fn ++ "(".data ++ q) := by
    refine Frag.append h1 hfq (Or.inl ?_)
    rw [lastIsWordL_append (by decide : ("(".data : Str) ≠ [])]
    decide
  have h3 : Frag (fn ++ "(".data ++ q ++ ") AS ".data) :=
    Frag.append h2 (frag_of_fragB (by decide)) (Or.inr (by decide))
  refine Frag.append h3 hfa (Or.inl ?_)
  rw [lastIsWordL_append (by decide : (") AS ".data : Str) ≠ [])]
  decide

theorem frag_cd_shape {q qa : Str} (hfq : Frag q)
    (hql : lastIsWordL q = false) (hfa : Frag qa) :
    Frag ("COUNT(DISTINCT ".data ++ q ++ ") AS ".data ++ qa) := by
  have h1 : Frag ("COUNT(DISTINCT ".data ++ q) :=
    Frag.append (frag_of_fragB (by decide)) hfq (Or.inl (by decide))
  have h2 : Frag ("COUNT(DISTINCT ".data ++ q ++ ") AS ".data) :=
    Frag.append h1 (frag_of_fragB (by decide)) (Or.inr (by decide))
  refine Frag.append h2 hfa (Or.inl ?_)
  rw [lastIsWordL_append (by decide : (") AS ".data : Str) ≠ [])]
  decide

theorem frag_build_aggregation {a : Aggregation} {r : Str}
    (hsafe : selectItemSafe (SelectItem.agg a) = true)
    (hok : QueryPlanCompiler.build_aggregation a = Except.ok r) : Frag r := by
  unfold QueryPlanCompiler.build_aggregation at hok
  unfold selectItemSafe at hsafe
  simp only [Bool.and_eq_true] at hsafe
  obtain ⟨hcol, hal⟩ := hsafe
  cases hq : QueryPlanCompiler.escape_identifier a.column with
  | error e =>
    rw [hq] at hok
    exact absurd hok (by simp [Bind.bind, Except.bind])
  | ok q =>
    cases ha : QueryPlanCompiler.escape_identifier a.«alias» with
    | error e =>
      rw [hq, ha] at hok
      exact absurd hok (by simp [Bind.bind, Except.bind])
    | ok qa =>
      rw [hq, ha] at hok
      simp only [Bind.bind, Except.bind] at hok
      obtain ⟨hfq, -, hql⟩ := frag_escape hcol hq
      obtain ⟨hfa, -, -⟩ := frag_escape hal ha
      cases hfn : a.func <;> rw [hfn] at hok
      case count =>
        rw [if_neg (by decide)] at hok
        simp only [Except.ok.injEq] at hok
        subst hok
        exact frag_agg_shape (by decide) hfq hql hfa
      case count_distinct =>
        rw [if_pos (by decide)] at hok
        simp only [Except.ok.injEq] at hok
        subst hok
        exact frag_cd_shape hfq hql hfa
      case sum =>
        rw [if_neg (by decide)] at hok
        simp only [Except.ok.injEq] at hok
        subst hok
        exact frag_agg_shape (by decide) hfq hql hfa
      case avg =>
        rw [if_neg (by decide)] at hok
        simp only [Except.ok.injEq] at hok
        subst hok
        exact frag_agg_shape (by decide) hfq hql hfa
      case min =>
        rw [if_neg (by decide)] at hok
        simp only [Except.ok.injEq] at hok
        subst hok
        exact frag_agg_shape (by decide) hfq hql hfa
      case max =>
        rw [if_neg (by decide)] at hok
        simp only [Except.ok.injEq] at hok
        subst hok
        exact frag_agg_shape (by decide) hfq hql hfa

theorem frag_build_from {p : QueryPlan} {r : Str}
    (hs : identSafe p.table = true)
    (hok : QueryPlanCompiler.build_from p = Except.ok r) : Frag r := by
  unfold QueryPlanCompiler.build_from at hok
  cases hq : QueryPlanCompiler.escape_identifier p.table with
  | error e =>
    rw [hq] at hok
    exact absurd hok (by simp [Bind.bind, Except.bind])
  | ok q =>
    rw [hq] at hok
    simp only [Bind.bind, Except.bind, Except.ok.injEq] at hok
    subst hok
    exact Frag.append (frag_of_fragB (by decide)) (frag_escape hs hq).1
      (Or.inl (by decide))

theorem frag_build_where {p : QueryPlan} {r : Str}
    (hs : (p.filters.getD []).all filterSafe = true)
    (hok : QueryPlanCompiler.build_where p = Except.ok r) : Frag r := by
  unfold QueryPlanCompiler.build_where at hok
  by_cases hemp : (p.filters.getD []).isEmpty = true
  · rw [if_pos hemp] at hok
    injection hok with h
    subst h
    exact frag_nil
  · rw [if_neg hemp] at hok
    cases hm : exceptMapM QueryPlanCompiler.build_filter (p.filters.getD []) with
    | error e =>
      rw [hm] at hok
      exact absurd hok (by simp [Bind.bind, Except.bind])
    | ok conds =>
      rw [hm] at hok
      simp only [Bind.bind, Except.bind, Except.ok.injEq] at hok
      subst hok
      have hc : ∀ x ∈ conds, Frag x := by
        intro x hx
        obtain ⟨f, hfmem, hfok⟩ := exceptMapM_forall hm x hx
        exact frag_build_filter (List.all_eq_true.mp hs f hfmem) hfok
      have hinner : Frag (List.intercalate "\n  AND ".data conds) :=
        frag_intercalate (frag_of_fragB (by decide))
          (by decide) (by decide) (by decide) conds hc
      exact Frag.append (frag_of_fragB (by decide)) hinner (Or.inl (by decide))

theorem frag_build_group_by {p : QueryPlan} {r : Str}
    (hs : (p.group_by.getD []).all identSafe = true)
    (hok : QueryPlanCompiler.build_group_by p = Except.ok r) : Frag r := by
  unfold QueryPlanCompiler.build_group_by at hok
  by_cases hemp : (p.group_by.getD []).isEmpty = true
  · rw [if_pos hemp] at hok
    injection hok with h
    subst h
    exact frag_nil
  · rw [if_neg hemp] at hok
    cases hm : exceptMapM QueryPlanCompiler.escape_identifier (p.group_by.getD []) with
    | error e =>
      rw [hm] at hok
      exact absurd hok (by simp [Bind.bind, Except.bind])
    | ok cols =>
      rw [hm] at hok
      simp only [Bind.bind, Except.bind, Except.ok.injEq] at hok
      subst hok
      have hc : ∀ x ∈ cols, Frag x := by
        intro x hx
        obtain ⟨g, hgmem, hgok⟩ := exceptMapM_forall hm x hx
        exact (frag_escape (List.all_eq_true.mp hs g hgmem) hgok).1
      have hinner : Frag (List.intercalate ", ".data cols) :=
        frag_intercalate (frag_of_fragB (by decide))
          (by decide) (by decide) (by decide) cols hc
      exact Frag.append (frag_of_fragB (by decide)) hinner (Or.inl (by decide))

theorem frag_build_order_by {p : QueryPlan} {r : Str}
    (hs : ((p.order_by.getD []).all fun o => identSafe o.expr) = true)
    (hok : QueryPlanCompiler.build_order_by p = Except.ok r) : Frag r := by
  unfold QueryPlanCompiler.build_order_by at hok
  by_cases hemp : (p.order_by.getD []).isEmpty = true
  · rw [if_pos hemp] at hok
    injection hok with h
    subst h
    exact frag_nil
  · rw [if_neg hemp] at hok
    cases hm : exceptMapM (fun o => do
        let e ← QueryPlanCompiler.escape_identifier o.expr
        Except.ok (e ++ [' '] ++ (o.direction.value).map Char.toUpper))
        (p.order_by.getD []) with
    | error e =>
      rw [hm] at hok
      exact absurd hok (by simp [Bind.bind, Except.bind])
    | ok items =>
      rw [hm] at hok
      simp only [Bind.bind, Except.bind, Except.ok.injEq] at hok
      subst hok
      have hc : ∀ x ∈ items, Frag x := by
        intro x hx
        obtain ⟨o, homem, hook⟩ := exceptMapM_forall hm x hx
        cases hq : QueryPlanCompiler.escape_identifier o.expr with
        | error e =>
          rw [hq] at hook
          exact absurd hook (by simp [Bind.bind, Except.bind])
        | ok q =>
          rw [hq] at hook
          simp only [Bind.bind, Except.bind, Except.ok.injEq] at hook
          subst hook
          obtain ⟨hfq, -, hql⟩ :=
            frag_escape (List.all_eq_true.mp hs o homem) hq
          have h1 : Frag (q ++ [' ']) :=
            Frag.append hfq (frag_of_fragB (by decide)) (Or.inl hql)
          have h2 : Frag ((o.direction.value).map Char.toUpper) := by
            cases o.direction <;> exact frag_of_fragB (by decide)
          refine Frag.append h1 h2 (Or.inl ?_)
          rw [lastIsWordL_append (by decide : (([' ']) : Str) ≠ [])]
          decide
      have hinner : Frag (List.intercalate ", ".data items) :=
        frag_intercalate (frag_of_fragB (by decide))
          (by decide) (by decide) (by decide) items hc
      exact Frag.append (frag_of_fragB (by decide)) hinner (Or.inl (by decide))

theorem natStrAux_ne_nil {fuel n : Nat} (h : 1 ≤ fuel) :
    natStrAux fuel n ≠ [] := by
  cases fuel with
  | zero => omega
  | succ m =>
    unfold natStrAux
    split_ifs <;> simp

theorem intStr_ne_nil (k : Int) : intStr k ≠ [] := by
  unfold intStr natStr
  split_ifs
  · simp
  · exact natStrAux_ne_nil (by omega)

theorem natStrAux_getLast {fuel n : Nat} (h : 1 ≤ fuel) :
    ∃ d, d < 10 ∧ (natStrAux fuel n).getLast? = some (Char.ofNat (48 + d)) := by
  cases fuel with
  | zero => omega
  | succ m =>
    unfold natStrAux
    split_ifs with h10
    · exact ⟨n, h10, rfl⟩
    · refine ⟨n % 10, Nat.mod_lt _ (by omega), ?_⟩
      rw [List.getLast?_append_of_ne_nil _ (by simp)]
      rfl

theorem intStr_getLast (k : Int) :
    ∃ d, d < 10 ∧ (intStr k).getLast? = some (Char.ofNat (48 + d)) := by
  unfold intStr natStr
  split_ifs
  · obtain ⟨d, hd, hlast⟩ :=
      @natStrAux_getLast (k.natAbs + 1) k.natAbs (by omega)
    refine ⟨d, hd, ?_⟩
    have : ('-' :: natStrAux (k.natAbs + 1) k.natAbs)
        = ['-'] ++ natStrAux (k.natAbs + 1) k.natAbs := rfl
    rw [this, List.getLast?_append_of_ne_nil _ (natStrAux_ne_nil (by omega))]
    exact hlast
  · exact natStrAux_getLast (by omega)

theorem intercalate_last_facts {α} (sep : List α) :
    ∀ (xs : List (List α)) (x : List α), x ≠ [] →
      List.intercalate sep (xs ++ [x]) ≠ [] ∧
        (List.intercalate sep (xs ++ [x])).getLast? = x.getLast? := by
  intro xs
  induction xs with
  | nil =>
    intro x hx
    constructor
    · simpa [List.intercalate] using hx
    · simp [List.intercalate]
  | cons y ys ih =>
    intro x hx
    have h2 := ih x hx
    obtain ⟨z, zs, hz⟩ : ∃ z zs, ys ++ [x] = z :: zs := by
      cases h : ys ++ [x] with
      | nil => exact absurd h (by simp)
      | cons z zs => exact ⟨z, zs, rfl⟩
    have hshape : (y :: ys) ++ [x] = y :: (ys ++ [x]) := rfl
    rw [hshape, hz, intercalate_cons_cons, ← hz]
    constructor
    · simp only [ne_eq, List.append_eq_nil]
      rintro ⟨-, habs⟩
      exact h2.1 habs
    · rw [List.getLast?_append_of_ne_nil _ h2.1]
      exact h2.2

theorem intercalate_head {α} (sep x : List α) (rest : List (List α)) :
    ∃ t, List.intercalate sep (x :: rest) = x ++ t := by
  cases rest with
  | nil => exact ⟨[], by simp [List.intercalate]⟩
  | cons y ys =>
    exact ⟨sep ++ List.intercalate sep (y :: ys),
      by rw [intercalate_cons_cons, List.append_assoc]⟩

theorem mem_ite_nil_single {α} {c : Prop} [Decidable c] {x y : α}
    (h : x ∈ (if c then ([] : List α) else [y])) : x = y := by
  split at h
  · cases h
  · simpa using h

theorem pyStrip_eq_self {s : Str}
    (h1 : ∀ c, s.head? = some c → isPySpace c = false)
    (h2 : ∀ c, s.getLast? = some c → isPySpace c = false) :
    pyStrip s = s := by
  unfold pyStrip
  have e1 : s.dropWhile isPySpace = s := by
    cases s with
    | nil => rfl
    | cons c t =>
      rw [List.dropWhile_cons, if_neg]
      simp [h1 c rfl]
  rw [e1]
  have e2 : s.reverse.dropWhile isPySpace = s.reverse := by
    cases hs : s.reverse with
    | nil => rfl
    | cons c t =>
      rw [List.dropWhile_cons, if_neg]
      · have hlast : s.getLast? = some c := by
          rw [← List.head?_reverse, hs]
          rfl
        simp [h2 c hlast]
  rw [e2, List.reverse_reverse]

/-- The policy accepts a clean (`Frag`) SQL string that needs no stripping
and starts with `SELECT`. -/
theorem validate_ok_of_clean {sql : Str} (hf : Frag sql)
    (hstrip : pyStrip sql = sql)
    (hpre : ∃ t, sql = "SELECT".data ++ t) :
    validate_sql_policy sql = none := by
  obtain ⟨t, hteq⟩ := hpre
  have hA : "select".data.isPrefixOf (pyLower sql) = true := by
    rw [List.isPrefixOf_iff_prefix, hteq]
    refine ⟨pyLower t, ?_⟩
    rw [pyLower, pyLower, List.map_append]
    have : List.map Char.toLower "SELECT".data = "select".data := by decide
    rw [this]
  have hB : (pyRstripSemi sql).contains ';' = false := by
    rw [Bool.eq_false_iff]
    intro hq
    have hmem : (';' : Char) ∈ pyRstripSemi sql := (char_contains_iff _ _).mp hq
    apply hf.1
    unfold pyRstripSemi at hmem
    rw [List.mem_reverse] at hmem
    exact List.mem_reverse.mp ((List.dropWhile_sublist _).subset hmem)
  have hC : SQL_BLOCKLIST.find?
      (fun tok => contains_blocked_sql_token (pyLower sql) tok) = none := by
    apply List.find?_eq_none.mpr
    intro tok hmem hcb
    exact hf.2 tok hmem ((contains_blocked_iff _ _).mp hcb)
  simp only [validate_sql_policy, hstrip, hA, Bool.true_or, Bool.not_true,
    Bool.false_eq_true, if_false, hB, hC]

theorem frag_build_select {p : QueryPlan} {r : Str}
    (hs : (p.select.getD []).all selectItemSafe = true)
    (hok : QueryPlanCompiler.build_select p = Except.ok r) :
    Frag r ∧ ∃ t, r = "SELECT".data ++ t := by
  unfold QueryPlanCompiler.build_select at hok
  by_cases hemp : (p.select.getD []).isEmpty = true
  · rw [if_pos hemp] at hok
    injection hok with h
    subst h
    exact ⟨frag_of_fragB (by decide), " *".data, by decide⟩
  · rw [if_neg hemp] at hok
    cases hm : exceptMapM (fun it =>
        match it with
        | SelectItem.col c => QueryPlanCompiler.build_select_col c
        | SelectItem.agg a => (QueryPlanCompiler.build_aggregation a).map some)
        (p.select.getD []) with
    | error e =>
      rw [hm] at hok
      exact absurd hok (by simp [Bind.bind, Except.bind])
    | ok cols0 =>
      rw [hm] at hok
      simp only [Bind.bind, Except.bind] at hok
      by_cases hc : (cols0.filterMap id).isEmpty = true
      · rw [if_pos hc] at hok
        exact absurd hok (by simp)
      · rw [if_neg hc] at hok
        injection hok with h
        subst h
        have hcs : ∀ x ∈ cols0.filterMap id, Frag x := by
          intro x hx
          obtain ⟨ox, hox, hoxid⟩ := List.mem_filterMap.mp hx
          have hox2 : ox = some x := hoxid
          subst hox2
          obtain ⟨it, hit, hfit⟩ := exceptMapM_forall hm (some x) hox
          have hsit := List.all_eq_true.mp hs it hit
          cases it with
          | col c =>
            dsimp only at hfit
            exact frag_build_select_col hsit hfit
          | agg a =>
            dsimp only at hfit
            cases ha : QueryPlanCompiler.build_aggregation a with
            | error e =>
              rw [ha] at hfit
              exact absurd hfit (by simp [Except.map])
            | ok y =>
              rw [ha] at hfit
              simp only [Except.map, Except.ok.injEq, Option.some.injEq] at hfit
              subst hfit
              exact frag_build_aggregation hsit ha
        have hinner : Frag (List.intercalate ",\n  ".data (cols0.filterMap id)) :=
          frag_intercalate (frag_of_fragB (by decide))
            (by decide) (by decide) (by decide) _ hcs
        refine ⟨Frag.append (frag_of_fragB (by decide)) hinner
            (Or.inl (by decide)),
          "\n  ".data ++ List.intercalate ",\n  ".data (cols0.filterMap id), ?_⟩
        rw [← List.append_assoc]
        rfl

/-- Conjunction of the per-component safety hypotheses of the amended C2:
identifiers are plain word strings off the blocklist and literal filter
values stay inert inside their quoted form. -/
def planSafe (p : QueryPlan) : Bool :=
  identSafe p.table
    && (p.select.getD []).all selectItemSafe
    && (p.filters.getD []).all filterSafe
    && (p.group_by.getD []).all identSafe
    && ((p.order_by.getD []).all fun o => identSafe o.expr)

theorem validate_parts_ok {mid : List Str} {selc t0 : Str} {lim : Int}
    (hfsel : Frag selc) (hpre : selc = "SELECT".data ++ t0)
    (hmid : ∀ x ∈ mid, Frag x) :
    validate_sql_policy (List.intercalate "\n".data
      ((selc :: mid) ++ ["LIMIT ".data ++ intStr lim])) = none := by
  have hlp : (("LIMIT ".data ++ intStr lim) : Str) ≠ [] := by simp
  have hlf : Frag ("LIMIT ".data ++ intStr lim) :=
    Frag.append (frag_of_fragB (by decide)) (frag_intStr _)
      (Or.inl (by decide))
  have hfragAll : ∀ x ∈ (selc :: mid) ++ ["LIMIT ".data ++ intStr lim],
      Frag x := by
    intro x hx
    rcases List.mem_append.mp hx with hx1 | hx2
    · rcases List.mem_cons.mp hx1 with h | h
      · rw [h]; exact hfsel
      · exact hmid x h
    · rw [List.mem_singleton.mp hx2]; exact hlf
  have hfrag : Frag (List.intercalate "\n".data
      ((selc :: mid) ++ ["LIMIT ".data ++ intStr lim])) :=
    frag_intercalate (frag_of_fragB (by decide)) (by decide) (by decide)
      (by decide) _ hfragAll
  obtain ⟨t, ht⟩ := intercalate_head "\n".data selc
    (mid ++ ["LIMIT ".data ++ intStr lim])
  have hteq : List.intercalate "\n".data
      ((selc :: mid) ++ ["LIMIT ".data ++ intStr lim])
      = "SELECT".data ++ (t0 ++ t) := by
    have hshape : (selc :: mid) ++ ["LIMIT ".data ++ intStr lim]
        = selc :: (mid ++ ["LIMIT ".data ++ intStr lim]) := rfl
    rw [hshape, ht, hpre, List.append_assoc]
  obtain ⟨d, hd, hdlast⟩ := intStr_getLast lim
  have hlast : (List.intercalate "\n".data
      ((selc :: mid) ++ ["LIMIT ".data ++ intStr lim])).getLast?
      = some (Char.ofNat (48 + d)) := by
    have h2 := (intercalate_last_facts "\n".data (selc :: mid)
      ("LIMIT ".data ++ intStr lim) hlp).2
    rw [h2, List.getLast?_append_of_ne_nil _ (intStr_ne_nil lim), hdlast]
  apply validate_ok_of_clean hfrag
  · apply pyStrip_eq_self
    · intro c hc
      rw [hteq] at hc
      have hS : (("SELECT".data ++ (t0 ++ t)) : Str).head? = some 'S' := rfl
      rw [hS] at hc
      injection hc with h
      rw [← h]
      decide
    · intro c hc
      rw [hlast] at hc
      injection hc with h
      rw [← h]
      interval_cases d <;> decide
  · exact ⟨t0 ++ t, hteq⟩

/-- Claim C2 (amended): a valid plan compiles to SQL accepted by
`validate_sql_policy` provided its identifiers are plain word strings off
the blocklist and its filter values stay inert inside their quoted form
(`planSafe`); without that proviso the claim fails, since quoted literals
can contain a blocked keyword as a whole word (see the counterexample). -/
theorem c2_compile_passes_policy {p : QueryPlan} {sql : Str}
    (hv : QueryPlan.valid p = true)
    (hsafe : planSafe p = true)
    (hok : QueryPlanCompiler.compile p = Except.ok sql) :
    validate_sql_policy sql = none := by
  unfold planSafe at hsafe
  simp only [Bool.and_eq_true] at hsafe
  obtain ⟨⟨⟨⟨htab, hsel⟩, hfil⟩, hgrp⟩, hord⟩ := hsafe
  unfold QueryPlanCompiler.compile at hok
  cases hS : QueryPlanCompiler.build_select p with
  | error e => rw [hS] at hok; simp [Bind.bind, Except.bind] at hok
  | ok selc =>
  rw [hS] at hok
  simp only [Bind.bind, Except.bind] at hok
  cases hF : QueryPlanCompiler.build_from p with
  | error e => rw [hF] at hok; simp at hok
  | ok fromc =>
  rw [hF] at hok
  simp only at hok
  cases hW : QueryPlanCompiler.build_where p with
  | error e => rw [hW] at hok; simp at hok
  | ok wherec =>
  rw [hW] at hok
  simp only at hok
  cases hG : QueryPlanCompiler.build_group_by p with
  | error e => rw [hG] at hok; simp at hok
  | ok groupc =>
  rw [hG] at hok
  simp only at hok
  cases hO : QueryPlanCompiler.build_order_by p with
  | error e => rw [hO] at hok; simp at hok
  | ok orderc =>
  rw [hO] at hok
  simp only at hok
  injection hok with h
  subst h
  obtain ⟨hfs, t0, hspre⟩ := frag_build_select hsel hS
  have hmid : ∀ x ∈ ([fromc] ++ (if wherec.isEmpty then [] else [wherec])
      ++ (if groupc.isEmpty then [] else [groupc])
      ++ (if orderc.isEmpty then [] else [orderc])), Frag x := by
    intro x hx
    rcases List.mem_append.mp hx with hx1 | hxo
    · rcases List.mem_append.mp hx1 with hx2 | hxg
      · rcases List.mem_append.mp hx2 with hxf | hxw
        · rw [List.mem_singleton.mp hxf]
          exact frag_build_from htab hF
        · rw [mem_ite_nil_single hxw]
          exact frag_build_where hfil hW
      · rw [mem_ite_nil_single hxg]
        exact frag_build_group_by hgrp hG
    · rw [mem_ite_nil_single hxo]
      exact frag_build_order_by hord hO
  exact validate_parts_ok hfs hspre hmid

/-- Witness for the amended C2 at a concrete valid, safe plan exercising
select, filter, group by, order by and limit. -/
theorem c2_witness :
    QueryPlan.valid
        ⟨"d".data, "t".data,
          some [SelectItem.col ⟨some "a".data, none, none⟩],
          some [⟨"c".data, FilterOp.eq, some (PyVal.vstr "x".data)⟩],
          some ["a".data], some [⟨"a".data, SortDir.asc⟩], some 10, none⟩
        = true ∧
      planSafe
        ⟨"d".data, "t".data,
          some [SelectItem.col ⟨some "a".data, none, none⟩],
          some [⟨"c".data, FilterOp.eq, some (PyVal.vstr "x".data)⟩],
          some ["a".data], some [⟨"a".data, SortDir.asc⟩], some 10, none⟩
        = true ∧
      QueryPlanCompiler.compile
        ⟨"d".data, "t".data,
          some [SelectItem.col ⟨some "a".data, none, none⟩],
          some [⟨"c".data, FilterOp.eq, some (PyVal.vstr "x".data)⟩],
          some ["a".data], some [⟨"a".data, SortDir.asc⟩], some 10, none⟩
        = Except.ok
          "SELECT\n  \"a\"\nFROM \"t\"\nWHERE\n  \"c\" = 'x'\nGROUP BY \"a\"\nORDER BY \"a\" ASC\nLIMIT 10".data ∧
      validate_sql_policy
        "SELECT\n  \"a\"\nFROM \"t\"\nWHERE\n  \"c\" = 'x'\nGROUP BY \"a\"\nORDER BY \"a\" ASC\nLIMIT 10".data
        = none :=
  ⟨by decide, by decide, by decide,
    @c2_compile_passes_policy
      ⟨"d".data, "t".data,
        some [SelectItem.col ⟨some "a".data, none, none⟩],
        some [⟨"c".data, FilterOp.eq, some (PyVal.vstr "x".data)⟩],
        some ["a".data], some [⟨"a".data, SortDir.asc⟩], some 10, none⟩
      "SELECT\n  \"a\"\nFROM \"t\"\nWHERE\n  \"c\" = 'x'\nGROUP BY \"a\"\nORDER BY \"a\" ASC\nLIMIT 10".data
      (by decide) (by decide) (by decide)⟩

/-- JSON values, as produced by `json.loads`. -/
inductive JVal where
  | jnull
  | jbool (b : Bool)
  | jnum (n : Int)
  | jstr (s : Str)
  | jarr (xs : List JVal)
  | jobj (fields : List (Str × JVal))

/-- Python truthiness of a JSON value. -/
def jTruthy : JVal → Bool
  | .jnull => false
  | .jbool b => b
  | .jnum n => n != 0
  | .jstr s => !s.isEmpty
  | .jarr xs => !xs.isEmpty
  | .jobj fs => !fs.isEmpty

/-- `dict.get(k)` on a JSON object (last binding wins, as in a Python
dict); `None` on a missing key or a non-object. -/
def JVal.getF : JVal → Str → Option JVal
  | .jobj fs, k => (fs.reverse.find? (fun p => p.1 == k)).map Prod.snd
  | _, _ => none

/-- Whether the value is a JSON object (a Python dict, on which `.get`
is legal). -/
def JVal.isObj : JVal → Bool
  | .jobj _ => true
  | _ => false

/-- Python `x == "s"` for an optional JSON value against a string. -/
def jvalIsStr (v : Option JVal) (s : Str) : Bool :=
  match v with
  | some (JVal.jstr t) => t == s
  | _ => false

/-- `d.get(k, dflt)` on a string-to-string dict built by repeated
assignment (last write wins). -/
def dictGetD (m : List (Str × Str)) (k dflt : Str) : Str :=
  match m.reverse.find? (fun p => p.1 == k) with
  | some p => p.2
  | none => dflt

/-- Embedding of `tools.EXECUTION_TOOL_NAMES`. -/
def EXECUTION_TOOL_NAMES : List Str :=
  ["execute_sql".data, "execute_query_plan".data, "execute_python".data]

/-- One tool call recorded on an `AIMessage` (`id`, `name`, parsed
`args` dict). -/
structure ToolCallM where
  id : Str
  name : Str
  args : List (Str × JVal)

/-- The LangChain messages `_extract_capsule_data` walks: `AIMessage`
(content plus tool calls), `ToolMessage` (tool_call_id plus content
string), and other messages (which the function ignores). -/
inductive Msg where
  | ai (content : Str) (tool_calls : List ToolCallM)
  | tool (tool_call_id : Str) (content : Str)
  | human (content : Str)

/-- The dict returned by `_extract_capsule_data`. -/
structure CapsuleData where
  dataset_id : Str
  question : Str
  query_mode : Str
  compiled_sql : Option JVal
  plan_json : Option JVal
  python_code : Option JVal
  status : Str
  result_json : Option JVal
  assistant_message : Str

/-- The mutable locals of `_extract_capsule_data`'s phase-2 walk. -/
structure ExtractState where
  result_json : Option JVal
  compiled_sql : Option JVal
  plan_json : Option JVal
  python_code : Option JVal
  query_mode : Str
  last_error : Option JVal
  assistant_message : Str

/-- Initial phase-2 state. -/
def initExtractState : ExtractState :=
  ⟨none, none, none, none, "chat".data, none, []⟩

/-- `inp.get(k)` on a tool call's args dict. -/
def argGet (args : List (Str × JVal)) (k : Str) : Option JVal :=
  (args.reverse.find? (fun p => p.1 == k)).map Prod.snd

/-- Phase 1 of `_extract_capsule_data`: the tool_call_id to tool_name
dict built from every `AIMessage`'s tool calls. -/
def buildToolCallMap (msgs : List Msg) : List (Str × Str) :=
  msgs.foldl (fun m msg =>
    match msg with
    | Msg.ai _ tcs => tcs.foldl (fun m tc => m ++ [(tc.id, tc.name)]) m
    | _ => m) []

/-- The per-tool-call updates of an `AIMessage` in phase 2: `execute_sql`
records the sql argument, `execute_query_plan` the (possibly re-parsed)
plan, `execute_python` the code; each sets `query_mode`. `json.loads` of
a plan string is the `loads` parameter; a parse failure stores `None`. -/
def applyToolCall (loads : Str → Option JVal) (st : ExtractState)
    (tc : ToolCallM) : ExtractState :=
  if tc.name == "execute_sql".data then
    { st with
        compiled_sql := argGet tc.args "sql".data,
        query_mode := "sql".data }
  else if tc.name == "execute_query_plan".data then
    { st with
        plan_json :=
          (match argGet tc.args "plan".data with
           | some v =>
             if jTruthy v then
               match v with
               | JVal.jstr s => loads s
               | _ => some v
             else st.plan_json
           | none => st.plan_json),
        query_mode := "plan".data }
  else if tc.name == "execute_python".data then
    { st with
        python_code := argGet tc.args "python_code".data,
        query_mode := "python".data }
  else st

/-- Phase-2 handling of one message. A `ToolMessage` whose call id maps
to an execution tool has its content parsed: a parse failure is swallowed
(`except: pass`), a parsed dict becomes `result_json` (recording
`last_error` when its status is "error"), and a parsed non-dict raises an
uncaught `AttributeError` at `parsed.get` — modeled as `none`. -/
def stepMsg (loads : Str → Option JVal) (tmap : List (Str × Str))
    (st : ExtractState) : Msg → Option ExtractState
  | Msg.human _ => some st
  | Msg.ai content tcs =>
    if !content.isEmpty && tcs.isEmpty then
      some { tcs.foldl (applyToolCall loads) st with
        assistant_message := content }
    else some (tcs.foldl (applyToolCall loads) st)
  | Msg.tool tcid content =>
    if EXECUTION_TOOL_NAMES.contains (dictGetD tmap tcid []) then
      match loads content with
      | none => some st
      | some parsed =>
        if parsed.isObj then
          if jvalIsStr (parsed.getF "status".data) "error".data then
            some { st with
                result_json := some parsed,
                last_error := parsed.getF "error".data }
          else some { st with result_json := some parsed }
        else none
    else some st

/-- The "Derive status" block of `_extract_capsule_data`. A truthy
non-dict `last_error` would raise `AttributeError` (modeled `none`). -/
def deriveStatus (query_mode : Str) (result_json last_error : Option JVal) :
    Option Str :=
  if query_mode == "chat".data then some "succeeded".data
  else
    match result_json with
    | none => some "succeeded".data
    | some rj =>
      if jvalIsStr (rj.getF "status".data) "success".data then
        some "succeeded".data
      else if jvalIsStr (rj.getF "status".data) "timeout".data then
        some "timed_out".data
      else
        match last_error with
        | none => some "failed".data
        | some le =>
          if jTruthy le then
            if le.isObj then
              if jvalIsStr (le.getF "type".data) "TIMEOUT".data then
                some "timed_out".data
              else if jvalIsStr (le.getF "type".data)
                    "SQL_POLICY_VIOLATION".data
                  || jvalIsStr (le.getF "type".data)
                    "FEATURE_DISABLED".data then
                some "rejected".data
              else some "failed".data
            else none
          else some "failed".data

/-- Embedding of `_extract_capsule_data` (`none` models an uncaught
exception; `loads` stands for `json.loads`, `none` being a raise). -/
def extract_capsule_data (loads : Str → Option JVal) (messages : List Msg)
    (dataset_id question : Str) : Option CapsuleData :=
  match List.foldlM (stepMsg loads (buildToolCallMap messages))
      initExtractState messages with
  | none => none
  | some st =>
    match deriveStatus st.query_mode st.result_json st.last_error with
    | none => none
    | some status =>
      some ⟨dataset_id, question, st.query_mode, st.compiled_sql,
        st.plan_json, st.python_code, status, st.result_json,
        if st.assistant_message.isEmpty then "Done.".data
        else st.assistant_message⟩

/-- Embedding of `main._normalize_runner_to_status`. -/
def normalize_runner_to_status (result : JVal) : Str :=
  if jvalIsStr (result.getF "status".data) "success".data then
    "succeeded".data
  else "failed".data

/-- The admissible values of `ChatResponse.status`
(`Literal["succeeded", "failed", "rejected"]`). -/
def ChatResponseStatuses : List Str :=
  ["succeeded".data, "failed".data, "rejected".data]

/-- The claim-side accumulator for C4: the latest successfully parsed
payload among tool results whose call id maps to an execution tool. -/
def lastExecStep (loads : Str → Option JVal) (tmap : List (Str × Str))
    (acc : Option JVal) : Msg → Option JVal
  | Msg.tool tcid content =>
    if EXECUTION_TOOL_NAMES.contains (dictGetD tmap tcid []) then
      match loads content with
      | some parsed => some parsed
      | none => acc
    else acc
  | _ => acc

/-- C4's claim-side value: the parsed payload of the latest
execution-tool result message in the trace (if any). -/
def lastExecParsed (loads : Str → Option JVal) (tmap : List (Str × Str))
    (msgs : List Msg) : Option JVal :=
  msgs.foldl (lastExecStep loads tmap) none

theorem applyToolCall_result_json (loads : Str → Option JVal)
    (st : ExtractState) (tc : ToolCallM) :
    (applyToolCall loads st tc).result_json = st.result_json := by
  unfold applyToolCall
  split_ifs <;> rfl

theorem foldl_applyToolCall_result_json (loads : Str → Option JVal) :
    ∀ (tcs : List ToolCallM) (st : ExtractState),
      (tcs.foldl (applyToolCall loads) st).result_json = st.result_json := by
  intro tcs
  induction tcs with
  | nil => intro st; rfl
  | cons tc ts ih =>
    intro st
    rw [List.foldl_cons, ih, applyToolCall_result_json]

theorem stepMsg_result_json {loads : Str → Option JVal}
    {tmap : List (Str × Str)} {st s1 : ExtractState} {m : Msg}
    (hs : stepMsg loads tmap st m = some s1) :
    s1.result_json = lastExecStep loads tmap st.result_json m := by
  cases m with
  | human c =>
    injection hs with h
    subst h
    rfl
  | ai content tcs =>
    unfold stepMsg at hs
    dsimp only at hs
    split_ifs at hs <;> (injection hs with h; subst h) <;>
      exact foldl_applyToolCall_result_json loads tcs st
  | tool tcid content =>
    unfold stepMsg at hs
    dsimp only at hs
    unfold lastExecStep
    dsimp only
    by_cases hex :
        EXECUTION_TOOL_NAMES.contains (dictGetD tmap tcid []) = true
    · rw [if_pos hex] at hs
      rw [if_pos hex]
      cases hl : loads content with
      | none =>
        rw [hl] at hs
        dsimp only at hs ⊢
        injection hs with h
        subst h
        rfl
      | some parsed =>
        rw [hl] at hs
        dsimp only at hs ⊢
        by_cases hobj : parsed.isObj = true
        · rw [if_pos hobj] at hs
          split_ifs at hs <;> (injection hs with h; subst h) <;> rfl
        · rw [if_neg hobj] at hs
          exact Option.noConfusion hs
    · rw [if_neg hex] at hs
      rw [if_neg hex]
      injection hs with h
      subst h
      rfl

theorem foldlM_result_json (loads : Str → Option JVal)
    (tmap : List (Str × Str)) :
    ∀ (msgs : List Msg) (st st' : ExtractState),
      List.foldlM (stepMsg loads tmap) st msgs = some st' →
      st'.result_json = msgs.foldl (lastExecStep loads tmap)
        st.result_json := by
  intro msgs
  induction msgs with
  | nil =>
    intro st st' h
    simp only [List.foldlM_nil] at h
    injection h with h
    subst h
    rfl
  | cons m ms ih =>
    intro st st' h
    rw [List.foldlM_cons] at h
    cases hs : stepMsg loads tmap st m with
    | none =>
      rw [hs] at h
      exact Option.noConfusion h
    | some s1 =>
      rw [hs] at h
      simp only [Bind.bind, Option.bind] at h
      rw [List.foldl_cons, ← stepMsg_result_json hs]
      exact ih s1 st' h

/-- Claim C4: whenever `_extract_capsule_data` returns (rather than
raising), the capsule's `result_json` is exactly the parsed payload of
the latest tool-result message whose call id maps, via the first-pass
id-to-name map, to one of the three execution tools — so non-execution
payloads (dataset listings, schemas) can never populate `result_json`. -/
theorem c4_result_json_from_exec_only
    {loads : Str → Option JVal} {msgs : List Msg} {d q : Str}
    {cap : CapsuleData}
    (h : extract_capsule_data loads msgs d q = some cap) :
    cap.result_json = lastExecParsed loads (buildToolCallMap msgs) msgs := by
  unfold extract_capsule_data at h
  cases hf : List.foldlM (stepMsg loads (buildToolCallMap msgs))
      initExtractState msgs with
  | none =>
    rw [hf] at h
    exact Option.noConfusion h
  | some st =>
    rw [hf] at h
    dsimp only at h
    cases hd : deriveStatus st.query_mode st.result_json st.last_error with
    | none =>
      rw [hd] at h
      exact Option.noConfusion h
    | some status =>
      rw [hd] at h
      dsimp only at h
      injection h with h
      subst h
      show st.result_json = _
      rw [foldlM_result_json loads (buildToolCallMap msgs) msgs
        initExtractState st hf]
      rfl

/-- Schema payload of the C4 witness trace. -/
def w4schema : JVal :=
  JVal.jobj [("columns".data, JVal.jarr [JVal.jstr "a".data])]

/-- Execution payload of the C4 witness trace. -/
def w4exec : JVal :=
  JVal.jobj [("status".data, JVal.jstr "success".data),
    ("rows".data, JVal.jarr [JVal.jnum 3])]

/-- `json.loads` oracle of the C4 witness trace. -/
def w4loads : Str → Option JVal := fun s =>
  if s == "SCHEMA_PAYLOAD".data then some w4schema
  else if s == "EXEC_PAYLOAD".data then some w4exec
  else none

/-- C4 witness trace: a `get_dataset_schema` result precedes an
`execute_sql` result. -/
def w4msgs : List Msg :=
  [Msg.human "question".data,
   Msg.ai [] [⟨"1".data, "get_dataset_schema".data, []⟩],
   Msg.tool "1".data "SCHEMA_PAYLOAD".data,
   Msg.ai [] [⟨"2".data, "execute_sql".data,
     [("sql".data, JVal.jstr "SELECT 1".data)]⟩],
   Msg.tool "2".data "EXEC_PAYLOAD".data,
   Msg.ai "All done".data []]

/-- Witness for C4: on a trace where a schema result precedes an
execute_sql result, the capsule's result_json is the execution payload
(never the schema payload), as the theorem predicts. -/
theorem c4_witness :
    extract_capsule_data w4loads w4msgs "d".data "q".data
        = some ⟨"d".data, "q".data, "sql".data,
            some (JVal.jstr "SELECT 1".data), none, none,
            "succeeded".data, some w4exec, "All done".data⟩ ∧
      lastExecParsed w4loads (buildToolCallMap w4msgs) w4msgs
        = some w4exec ∧
      (⟨"d".data, "q".data, "sql".data, some (JVal.jstr "SELECT 1".data),
          none, none, "succeeded".data, some w4exec,
          "All done".data⟩ : CapsuleData).result_json
        = lastExecParsed w4loads (buildToolCallMap w4msgs) w4msgs :=
  ⟨rfl, rfl,
    @c4_result_json_from_exec_only w4loads w4msgs "d".data "q".data
      ⟨"d".data, "q".data, "sql".data, some (JVal.jstr "SELECT 1".data),
        none, none, "succeeded".data, some w4exec, "All done".data⟩ rfl⟩

/-- Claim C3 (code bug): the claimed mapping `runner "timeout" ⇒ capsule
"timed_out"` holds only on the agent path (`_extract_capsule_data`); on
the direct-execute fast path the capsule status comes from
`_normalize_runner_to_status`, which sends every non-"success" runner
status — including "timeout" — to "failed", and `ChatResponse.status`
cannot even carry "timed_out". The "success" and
SQL_POLICY_VIOLATION/FEATURE_DISABLED parts of the claim do hold. -/
theorem c3_timeout_status_mapping :
    normalize_runner_to_status
        (JVal.jobj [("status".data, JVal.jstr "success".data)])
        = "succeeded".data
      ∧ normalize_runner_to_status
          (JVal.jobj [("status".data, JVal.jstr "timeout".data)])
          = "failed".data
      ∧ ChatResponseStatuses.contains "timed_out".data = false
      ∧ deriveStatus "sql".data
          (some (JVal.jobj [("status".data, JVal.jstr "timeout".data)])) none
          = some "timed_out".data
      ∧ deriveStatus "sql".data
          (some (JVal.jobj
            [("status".data, JVal.jstr "error".data),
             ("error".data, JVal.jobj
               [("type".data, JVal.jstr "SQL_POLICY_VIOLATION".data)])]))
          (some (JVal.jobj
            [("type".data, JVal.jstr "SQL_POLICY_VIOLATION".data)]))
          = some "rejected".data :=
  ⟨rfl, rfl, rfl, rfl, rfl⟩

/-- A `POST /chat` request (`ChatRequest`). -/
structure ChatRequestM where
  message : Str
  dataset_id : Str
  thread_id : Option Str

/-- The response of a chat turn (`ChatResponse`; the `details` dict is
not modeled). -/
structure ChatResponseM where
  assistant_message : Str
  run_id : Str
  thread_id : Str
  status : Str
  result : JVal

/-- A row of the message store. -/
structure StoredMsg where
  thread_id : Str
  role : Str
  content : Str
  dataset_id : Str
  run_id : Str

/-- A row of the capsule store (fields relevant to the claims). -/
structure StoredCapsule where
  run_id : Str
  dataset_id : Str
  question : Str
  query_mode : Str
  status : Str

/-- The persistent stores `process_chat` writes to. -/
structure ChatState where
  messages : List StoredMsg
  capsules : List StoredCapsule

/-- The coerced LLM draft (`AgentDraft`). -/
structure AgentDraft where
  query_mode : Str
  assistant_message : Str
  sql : Option Str
  plan : Option QueryPlan

/-- The external effects of one `process_chat` call, fixed up front: the
generated uuids, the feature flag, the python-intent heuristic, the three
LLM helpers (`None` = unavailable or unparseable), the fallback plan
(`None` = `ValidationError`), the runner envelope and the user-facing
summary string. -/
structure ChatOracles where
  run_id : Str
  fresh_thread : Str
  enable_python : Bool
  is_python_intent : Bool
  python_gen : Option (Str × Str)
  heuristic_python : Option Str
  draft : Option AgentDraft
  rescue : Option (Str × Str)
  fallback_plan : Option QueryPlan
  runner_result : JVal
  summary : Str

/-- `thread_id = request.thread_id or f"thread-uuid"`. -/
def threadIdOf (o : ChatOracles) (req : ChatRequestM) : Str :=
  match req.thread_id with
  | some t => if t.isEmpty then o.fresh_thread else t
  | none => o.fresh_thread

/-- The stored user message appended at the start of every turn. -/
def userMsgOf (o : ChatOracles) (req : ChatRequestM) (tid : Str) : StoredMsg :=
  ⟨tid, "user".data, req.message, req.dataset_id, o.run_id⟩

/-- State after the unconditional user-message append. -/
def userAppended (o : ChatOracles) (req : ChatRequestM) (st0 : ChatState) :
    ChatState :=
  { st0 with messages := st0.messages ++ [userMsgOf o req (threadIdOf o req)] }

/-- The `result` dict of a rejection branch. -/
def errResult (ty : Str) : JVal :=
  JVal.jobj [("columns".data, JVal.jarr []), ("rows".data, JVal.jarr []),
    ("row_count".data, JVal.jnum 0), ("exec_time_ms".data, JVal.jnum 0),
    ("error".data, JVal.jobj [("type".data, JVal.jstr ty)])]

/-- The empty `result` dict of the chat-draft branch. -/
def emptyResult : JVal :=
  JVal.jobj [("columns".data, JVal.jarr []), ("rows".data, JVal.jarr []),
    ("row_count".data, JVal.jnum 0), ("exec_time_ms".data, JVal.jnum 0),
    ("error".data, JVal.jnull)]

/-- The `result` dict rebuilt from a runner envelope. -/
def repack_result (rr : JVal) : JVal :=
  JVal.jobj [("columns".data, (rr.getF "columns".data).getD (JVal.jarr [])),
    ("rows".data, (rr.getF "rows".data).getD (JVal.jarr [])),
    ("row_count".data, (rr.getF "row_count".data).getD (JVal.jnum 0)),
    ("exec_time_ms".data,
      (rr.getF "exec_time_ms".data).getD (JVal.jnum 0)),
    ("error".data, (rr.getF "error".data).getD JVal.jnull)]

/-- Everything after the first ':' of the message, stripped
(`message.split(":", 1)[1].strip()`). -/
def afterColon (s : Str) : Str :=
  pyStrip ((s.dropWhile (fun c => c ≠ ':')).drop 1)

/-- The shared tail of every non-exception return: `persist_capsule`,
`persist_assistant`, `return response` (the closures defined at the top
of `process_chat`). -/
def chatFinish (rid tid : Str) (req : ChatRequestM) (query_mode : Str)
    (amsg status : Str) (result : JVal) (st : ChatState) :
    Except Str ChatResponseM × ChatState :=
  (Except.ok ⟨amsg, rid, tid, status, result⟩,
   { st with
       capsules := st.capsules
         ++ [⟨rid, req.dataset_id, req.message, query_mode, status⟩],
       messages := st.messages
         ++ [⟨tid, "assistant".data, amsg, req.dataset_id, rid⟩] })

/-- The tail of `process_chat` shared by every execution mode: SQL
normalization and the policy gate for non-python modes, then the runner
call and the status normalization. -/
def execPhase (o : ChatOracles) (req : ChatRequestM) (tid : Str)
    (query_mode : Str) (sql : Str) (st : ChatState) :
    Except Str ChatResponseM × ChatState :=
  match (if !(query_mode == "python".data) && !(query_mode == "chat".data)
         then validate_sql_policy
           (normalize_sql_for_dataset sql req.dataset_id)
         else none) with
  | some e =>
    chatFinish o.run_id tid req query_mode
      "Query rejected by SQL policy.".data "rejected".data
      (JVal.jobj [("columns".data, JVal.jarr []),
        ("rows".data, JVal.jarr []), ("row_count".data, JVal.jnum 0),
        ("exec_time_ms".data, JVal.jnum 0),
        ("error".data, JVal.jobj
          [("type".data, JVal.jstr "SQL_POLICY_VIOLATION".data),
           ("message".data, JVal.jstr e)])]) st
  | none =>
    chatFinish o.run_id tid req query_mode o.summary
      (normalize_runner_to_status o.runner_result)
      (repack_result o.runner_result) st

/-- Embedding of `main.process_chat`: the user message is appended
unconditionally, then each branch (feature-disabled, generation-failed,
chat draft, LLM-unavailable, policy rejection, execution) persists one
capsule and one assistant message through `chatFinish` and returns; the
`HTTPException`/`CompilationError` raises of the plan path are
`Except.error` outcomes that persist nothing further. -/
def process_chat (o : ChatOracles) (req : ChatRequestM) (st0 : ChatState) :
    Except Str ChatResponseM × ChatState :=
  if "python:".data.isPrefixOf (pyLower (pyStrip req.message))
      || (o.is_python_intent
          && !"sql:".data.isPrefixOf (pyLower (pyStrip req.message))) then
    if !o.enable_python then
      chatFinish o.run_id (threadIdOf o req) req "python".data
        "Query rejected: Python execution is disabled.".data
        "rejected".data (errResult "FEATURE_DISABLED".data)
        (userAppended o req st0)
    else
      if "python:".data.isPrefixOf (pyLower (pyStrip req.message)) then
        execPhase o req (threadIdOf o req) "python".data []
          (userAppended o req st0)
      else
        match o.python_gen with
        | some _ =>
          execPhase o req (threadIdOf o req) "python".data []
            (userAppended o req st0)
        | none =>
          match o.heuristic_python with
          | some _ =>
            execPhase o req (threadIdOf o req) "python".data []
              (userAppended o req st0)
          | none =>
            chatFinish o.run_id (threadIdOf o req) req "python".data
              ("I couldn't generate safe Python for that request. "
                ++ "Please provide explicit code with 'PYTHON: ...'.").data
              "rejected".data (errResult "VALIDATION_ERROR".data)
              (userAppended o req st0)
  else if "sql:".data.isPrefixOf (pyLower (pyStrip req.message)) then
    execPhase o req (threadIdOf o req) "sql".data
      (afterColon req.message) (userAppended o req st0)
  else
    match o.draft with
    | some d =>
      if d.query_mode == "chat".data then
        chatFinish o.run_id (threadIdOf o req) req "chat".data
          d.assistant_message "succeeded".data emptyResult
          (userAppended o req st0)
      else if d.query_mode == "sql".data then
        execPhase o req (threadIdOf o req) "sql".data (d.sql.getD [])
          (userAppended o req st0)
      else
        match (match d.plan with
               | some p => some p
               | none => o.fallback_plan) with
        | none =>
          (Except.error "400: plan validation error".data,
           userAppended o req st0)
        | some p =>
          match QueryPlanCompiler.compile p with
          | Except.error e => (Except.error e, userAppended o req st0)
          | Except.ok csql =>
            execPhase o req (threadIdOf o req) d.query_mode csql
              (userAppended o req st0)
    | none =>
      match o.rescue with
      | some r =>
        execPhase o req (threadIdOf o req) "sql".data r.2
          (userAppended o req st0)
      | none =>
        chatFinish o.run_id (threadIdOf o req) req "chat".data
          ("LLM service unavailable or returned an invalid response. "
            ++ "Please try again, or use explicit `SQL:` / `PYTHON:`.").data
          "rejected".data (errResult "LLM_UNAVAILABLE".data)
          (userAppended o req st0)

theorem find?_append_none {α : Type} (p : α → Bool) :
    ∀ (l1 : List α), l1.find? p = none →
      ∀ l2 : List α, (l1 ++ l2).find? p = l2.find? p
  | [], _, l2 => rfl
  | a :: l, h, l2 => by
    cases hpa : p a with
    | true =>
      rw [List.find?_cons_of_pos _ hpa] at h
      exact Option.noConfusion h
    | false =>
      rw [List.find?_cons_of_neg _ (by simp [hpa])] at h
      rw [List.cons_append, List.find?_cons_of_neg _ (by simp [hpa])]
      exact find?_append_none p l h l2

theorem chatFinish_eq {rid tid qm amsg status : Str} {req : ChatRequestM}
    {result : JVal} {stm st1 : ChatState} {resp : ChatResponseM}
    (h : chatFinish rid tid req qm amsg status result stm
      = (Except.ok resp, st1)) :
    resp = ⟨amsg, rid, tid, status, result⟩ ∧
      st1 = { stm with
        capsules := stm.capsules
          ++ [⟨rid, req.dataset_id, req.message, qm, status⟩],
        messages := stm.messages
          ++ [⟨tid, "assistant".data, amsg, req.dataset_id, rid⟩] } := by
  unfold chatFinish at h
  injection h with h1 h2
  injection h1 with h1
  exact ⟨h1.symm, h2.symm⟩

theorem finish_c6 {o : ChatOracles} {req : ChatRequestM} {st0 : ChatState}
    {qm amsg status : Str} {result : JVal} {resp : ChatResponseM}
    {st1 : ChatState}
    (hfresh : ∀ c ∈ st0.capsules, c.run_id ≠ o.run_id)
    (h : chatFinish o.run_id (threadIdOf o req) req qm amsg status result
        (userAppended o req st0) = (Except.ok resp, st1)) :
    resp.run_id = o.run_id
    ∧ st1.capsules.length = st0.capsules.length + 1
    ∧ ((st1.capsules.find? (fun c => c.run_id == o.run_id)).map
        (fun c => (c.run_id, c.dataset_id, c.question, c.status)))
      = some (o.run_id, req.dataset_id, req.message, resp.status)
    ∧ st1.messages = st0.messages
        ++ [userMsgOf o req resp.thread_id,
            ⟨resp.thread_id, "assistant".data, resp.assistant_message,
              req.dataset_id, o.run_id⟩] := by
  obtain ⟨hr, hs⟩ := chatFinish_eq h
  subst hr
  subst hs
  refine ⟨rfl, by simp [userAppended], ?_, ?_⟩
  · show ((((userAppended o req st0).capsules
        ++ [(⟨o.run_id, req.dataset_id, req.message, qm, status⟩ :
              StoredCapsule)]).find?
          (fun c : StoredCapsule => c.run_id == o.run_id)).map
        (fun c : StoredCapsule =>
          (c.run_id, c.dataset_id, c.question, c.status)))
      = some (o.run_id, req.dataset_id, req.message, status)
    have h0 : (userAppended o req st0).capsules.find?
        (fun c => c.run_id == o.run_id) = none := by
      apply List.find?_eq_none.mpr
      intro c hc
      simp only [beq_iff_eq]
      exact hfresh c hc
    rw [find?_append_none _ _ h0]
    simp [List.find?]
  · show (userAppended o req st0).messages ++ _ = _
    unfold userAppended
    rw [List.append_assoc]
    rfl

theorem execPhase_c6 {o : ChatOracles} {req : ChatRequestM} {tid qm : Str}
    {sql : Str} {st : ChatState} {resp : ChatResponseM} {st1 : ChatState}
    (h : execPhase o req tid qm sql st = (Except.ok resp, st1)) :
    ∃ amsg status result,
      chatFinish o.run_id tid req qm amsg status result st
        = (Except.ok resp, st1) := by
  unfold execPhase at h
  split at h
  · exact ⟨_, _, _, h⟩
  · exact ⟨_, _, _, h⟩

/-- Oracles of the C6 witness: no prefixes, no LLM, no rescue. -/
def w6o : ChatOracles :=
  ⟨"r1".data, "t1".data, true, false, none, none, none, none, none,
    JVal.jobj [], "ok".data⟩

/-- Request of the C6 witness. -/
def w6req : ChatRequestM := ⟨"hello".data, "ds".data, none⟩

/-- Response of the C6 witness turn (the LLM-unavailable branch). -/
def w6resp : ChatResponseM :=
  ⟨("LLM service unavailable or returned an invalid response. "
      ++ "Please try again, or use explicit `SQL:` / `PYTHON:`.").data,
    "r1".data, "t1".data, "rejected".data,
    errResult "LLM_UNAVAILABLE".data⟩

/-- Final store state of the C6 witness turn. -/
def w6st1 : ChatState :=
  ⟨[userMsgOf w6o w6req "t1".data,
    ⟨"t1".data, "assistant".data, w6resp.assistant_message, "ds".data,
      "r1".data⟩],
   [⟨"r1".data, "ds".data, "hello".data, "chat".data, "rejected".data⟩]⟩

/-- One server-sent event: its `event` name and its `data` payload. -/
structure SEvent where
  event : Str
  data : JVal

/-- Embedding of the `stream()` generator of `POST /chat/stream`: on a
normal `process_chat` return it yields the collected status events, a
`result` event (the response dump, which carries the run id) and a
`done` event carrying the run id; when `process_chat` raises, it yields
an `error` event and a `done` event whose payload is the empty dict. -/
def chat_stream_events (o : ChatOracles) (req : ChatRequestM)
    (st0 : ChatState) (stages : List Str) : List SEvent :=
  match (process_chat o req st0).1 with
  | Except.ok resp =>
    (stages.map fun s =>
      ⟨"status".data, JVal.jobj [("stage".data, JVal.jstr s)]⟩)
      ++ [⟨"result".data,
            JVal.jobj [("run_id".data, JVal.jstr resp.run_id),
              ("status".data, JVal.jstr resp.status)]⟩,
          ⟨"done".data,
            JVal.jobj [("run_id".data, JVal.jstr resp.run_id)]⟩]
  | Except.error e =>
    [⟨"error".data,
        JVal.jobj [("type".data, JVal.jstr "RUNNER_INTERNAL_ERROR".data),
          ("message".data, JVal.jstr e)]⟩,
     ⟨"done".data, JVal.jobj []⟩]

/-- Embedding of the event structure of `AgentSession.stream_agent`:
after the token/tool_call/tool_result events of the streaming loop
(`mid`), the recursion-limit branch yields `error` then `done` with the
run id, and the normal branch yields `result` then `done` with the run
id. -/
def stream_agent_events (run_id : Str) (mid : List SEvent)
    (recursion_limit : Bool) : List SEvent :=
  if recursion_limit then
    mid ++ [⟨"error".data,
              JVal.jobj [("type".data,
                JVal.jstr "AGENT_RECURSION_LIMIT".data)]⟩,
            ⟨"done".data,
              JVal.jobj [("run_id".data, JVal.jstr run_id)]⟩]
  else
    mid ++ [⟨"result".data,
              JVal.jobj [("run_id".data, JVal.jstr run_id)]⟩,
            ⟨"done".data,
              JVal.jobj [("run_id".data, JVal.jstr run_id)]⟩]

/-- Oracles of the C9 counterexample: a draft demanding a plan with no
plan and no fallback, so `process_chat` raises. -/
def c9o : ChatOracles :=
  ⟨"r9".data, "t9".data, true, false, none, none,
    some ⟨"plan".data, "Here".data, none, none⟩, none, none,
    JVal.jobj [], "ok".data⟩

/-- Request of the C9 counterexample. -/
def c9req : ChatRequestM := ⟨"count tickets".data, "ds".data, none⟩

/-- Claim C9 counterexample: on the error branch of `chat_stream` the
final event is `done` but its payload is the empty dict — it does not
carry the run id, contradicting the claim that the final `done` always
does. -/
theorem c9_counterexample :
    (chat_stream_events c9o c9req ⟨[], []⟩ []).getLast?
        = some ⟨"done".data, JVal.jobj []⟩
      ∧ (JVal.jobj []).getF "run_id".data = none :=
  ⟨rfl, rfl⟩

theorem getLast_append_pair {α : Type} (l : List α) (x y : α) :
    (l ++ [x, y]).getLast? = some y := by
  have h2 : ([x, y] : List α) ≠ [] := by simp
  rw [List.getLast?_append_of_ne_nil _ h2]
  rfl

/-- Claim C9 (amended): every branch of both stream generators ends with
a `done` event; the `done` of `stream_agent` always carries the run id,
and so does the `done` of `chat_stream` on the non-exception path — but
on `chat_stream`'s error branch the `done` payload is empty (see the
counterexample). -/
theorem c9_final_done_event (o : ChatOracles) (req : ChatRequestM)
    (st0 : ChatState) (stages : List Str) (rid : Str) (mid : List SEvent)
    (rl : Bool) :
    ((chat_stream_events o req st0 stages).getLast?.map
        (fun e => e.event)) = some "done".data
    ∧ (∀ resp st1, process_chat o req st0 = (Except.ok resp, st1) →
        (chat_stream_events o req st0 stages).getLast?
          = some ⟨"done".data,
              JVal.jobj [("run_id".data, JVal.jstr resp.run_id)]⟩)
    ∧ (stream_agent_events rid mid rl).getLast?
        = some ⟨"done".data,
            JVal.jobj [("run_id".data, JVal.jstr rid)]⟩ := by
  refine ⟨?_, ?_, ?_⟩
  · unfold chat_stream_events
    cases hp : (process_chat o req st0).1 with
    | ok resp => rw [getLast_append_pair]; rfl
    | error e => rfl
  · intro resp st1 hp
    unfold chat_stream_events
    rw [show (process_chat o req st0).1 = Except.ok resp from by
      rw [hp]]
    exact getLast_append_pair _ _ _
  · unfold stream_agent_events
    split_ifs <;> exact getLast_append_pair _ _ _

/-- Witness for C9 on the happy path of `chat_stream` (via the C6
witness scenario) and on the recursion-limit branch of `stream_agent`. -/
theorem c9_witness :
    ((chat_stream_events w6o w6req ⟨[], []⟩
        ["planning".data]).getLast?.map (fun e => e.event))
        = some "done".data
      ∧ (chat_stream_events w6o w6req ⟨[], []⟩ ["planning".data]).getLast?
        = some ⟨"done".data,
            JVal.jobj [("run_id".data, JVal.jstr "r1".data)]⟩
      ∧ (stream_agent_events "r9".data [] true).getLast?
        = some ⟨"done".data,
            JVal.jobj [("run_id".data, JVal.jstr "r9".data)]⟩ :=
  ⟨(c9_final_done_event w6o w6req ⟨[], []⟩ ["planning".data] "r9".data
      [] true).1,
   (c9_final_done_event w6o w6req ⟨[], []⟩ ["planning".data] "r9".data
      [] true).2.1 w6resp w6st1 rfl,
   (c9_final_done_event w6o w6req ⟨[], []⟩ ["planning".data] "r9".data
      [] true).2.2⟩

/-- The outcome of `self.agent_graph.invoke`/the streaming loop: a
`GraphRecursionError` or the final message list of the graph. -/
inductive AgentInvoke where
  | recursionError
  | ok (messages : List Msg)

/-- The recursion-limit apology persisted by `run_agent` and
`stream_agent`. -/
def recursionAssistantMsg : Str :=
  ("I hit an internal reasoning limit while refining that request. "
    ++ "Please rephrase it with explicit fields/tables (for example: "
    ++ "'top 10 products by revenue including inventory.name').").data

/-- `capsule_data.get("result_json") or empty-result` of the agent
path. -/
def resultPayloadOf (rj : Option JVal) : JVal :=
  match rj with
  | some v => if jTruthy v then v else emptyResult
  | none => emptyResult

/-- Embedding of `AgentSession.run_agent`: the user message is persisted
up front; a `GraphRecursionError` persists the apology and a
failed/chat capsule and returns; otherwise `_extract_capsule_data` runs
(its uncaught `AttributeError` is the `Except.error` outcome, persisting
nothing further), then the assistant message and the extracted capsule
are persisted and the response dict returned. -/
def run_agent (loads : Str → Option JVal)
    (run_id dataset_id message thread_id : Str) (inv : AgentInvoke)
    (st0 : ChatState) : Except Str ChatResponseM × ChatState :=
  match inv with
  | AgentInvoke.recursionError =>
    (Except.ok ⟨recursionAssistantMsg, run_id, thread_id, "failed".data,
        errResult "AGENT_RECURSION_LIMIT".data⟩,
     ⟨(st0.messages
         ++ [⟨thread_id, "user".data, message, dataset_id, run_id⟩])
        ++ [⟨thread_id, "assistant".data, recursionAssistantMsg,
              dataset_id, run_id⟩],
      st0.capsules
        ++ [⟨run_id, dataset_id, message, "chat".data, "failed".data⟩]⟩)
  | AgentInvoke.ok msgs =>
    match extract_capsule_data loads msgs dataset_id message with
    | none =>
      (Except.error "AttributeError in _extract_capsule_data".data,
       ⟨st0.messages
          ++ [⟨thread_id, "user".data, message, dataset_id, run_id⟩],
        st0.capsules⟩)
    | some cap =>
      (Except.ok ⟨cap.assistant_message, run_id, thread_id, cap.status,
          repack_result (resultPayloadOf cap.result_json)⟩,
       ⟨(st0.messages
           ++ [⟨thread_id, "user".data, message, dataset_id, run_id⟩])
          ++ [⟨thread_id, "assistant".data, cap.assistant_message,
                dataset_id, run_id⟩],
        st0.capsules
          ++ [⟨run_id, dataset_id, message, cap.query_mode,
                cap.status⟩]⟩)

/-- Embedding of the persistence and terminal events of
`AgentSession.stream_agent` (`mid` are the token/tool events of the
streaming loop): a `GraphRecursionError` persists the apology and a
failed/chat capsule and yields `error` then `done` with the run id;
otherwise extraction runs (uncaught `AttributeError` = `Except.error`,
nothing further persisted or yielded), the assistant message and capsule
are persisted, and `result` then `done` with the run id are yielded. -/
def stream_agent_run (loads : Str → Option JVal)
    (run_id dataset_id message thread_id : Str) (mid : List SEvent)
    (inv : AgentInvoke) (st0 : ChatState) :
    Except Str (List SEvent) × ChatState :=
  match inv with
  | AgentInvoke.recursionError =>
    (Except.ok (mid
        ++ [⟨"error".data, JVal.jobj
              [("type".data, JVal.jstr "AGENT_RECURSION_LIMIT".data)]⟩,
            ⟨"done".data, JVal.jobj
              [("run_id".data, JVal.jstr run_id)]⟩]),
     ⟨(st0.messages
         ++ [⟨thread_id, "user".data, message, dataset_id, run_id⟩])
        ++ [⟨thread_id, "assistant".data, recursionAssistantMsg,
              dataset_id, run_id⟩],
      st0.capsules
        ++ [⟨run_id, dataset_id, message, "chat".data, "failed".data⟩]⟩)
  | AgentInvoke.ok msgs =>
    match extract_capsule_data loads msgs dataset_id message with
    | none =>
      (Except.error "AttributeError in _extract_capsule_data".data,
       ⟨st0.messages
          ++ [⟨thread_id, "user".data, message, dataset_id, run_id⟩],
        st0.capsules⟩)
    | some cap =>
      (Except.ok (mid
          ++ [⟨"result".data, JVal.jobj
                [("run_id".data, JVal.jstr run_id),
                 ("status".data, JVal.jstr cap.status)]⟩,
              ⟨"done".data, JVal.jobj
                [("run_id".data, JVal.jstr run_id)]⟩]),
       ⟨(st0.messages
           ++ [⟨thread_id, "user".data, message, dataset_id, run_id⟩])
          ++ [⟨thread_id, "assistant".data, cap.assistant_message,
                dataset_id, run_id⟩],
        st0.capsules
          ++ [⟨run_id, dataset_id, message, cap.query_mode,
                cap.status⟩]⟩)

/-- The persistence contract of one completed turn: the response carries
the turn's run id, exactly one new capsule is stored and retrievable by
that run id, and exactly the user message and the assistant message were
appended to the thread. -/
def TurnPersists (run_id question dataset_id thread_id : Str)
    (st0 st1 : ChatState) (resp : ChatResponseM) : Prop :=
  resp.run_id = run_id
  ∧ st1.capsules.length = st0.capsules.length + 1
  ∧ ((st1.capsules.find? (fun c => c.run_id == run_id)).map
      (fun c => (c.run_id, c.dataset_id, c.question, c.status)))
    = some (run_id, dataset_id, question, resp.status)
  ∧ st1.messages = st0.messages
      ++ [⟨thread_id, "user".data, question, dataset_id, run_id⟩,
          ⟨thread_id, "assistant".data, resp.assistant_message,
            dataset_id, run_id⟩]

/-- The persistence contract of one streamed turn: exactly one new
capsule retrievable by the run id, the user and one assistant message
appended, and the stream closed by a final `done` event carrying the
run id. -/
def StreamTurnPersists (run_id question dataset_id thread_id : Str)
    (st0 st1 : ChatState) (events : List SEvent) : Prop :=
  st1.capsules.length = st0.capsules.length + 1
  ∧ ((st1.capsules.find? (fun c => c.run_id == run_id)).map
      (fun c => (c.run_id, c.dataset_id, c.question)))
    = some (run_id, dataset_id, question)
  ∧ (∃ amsg, st1.messages = st0.messages
      ++ [⟨thread_id, "user".data, question, dataset_id, run_id⟩,
          ⟨thread_id, "assistant".data, amsg, dataset_id, run_id⟩])
  ∧ events.getLast?
      = some ⟨"done".data, JVal.jobj [("run_id".data, JVal.jstr run_id)]⟩

theorem turn_persists_mk {rid q did tid amsg status qm : Str}
    {result : JVal} {st0 : ChatState}
    (hfresh : ∀ c ∈ st0.capsules, c.run_id ≠ rid) :
    TurnPersists rid q did tid st0
      ⟨(st0.messages ++ [⟨tid, "user".data, q, did, rid⟩])
         ++ [⟨tid, "assistant".data, amsg, did, rid⟩],
       st0.capsules ++ [⟨rid, did, q, qm, status⟩]⟩
      ⟨amsg, rid, tid, status, result⟩ := by
  have h0 : st0.capsules.find? (fun c => c.run_id == rid) = none := by
    apply List.find?_eq_none.mpr
    intro c hc
    simp only [beq_iff_eq]
    exact hfresh c hc
  refine ⟨rfl, by simp, ?_, ?_⟩
  · dsimp only
    rw [find?_append_none _ _ h0]
    simp [List.find?]
  · dsimp only
    rw [List.append_assoc]
    rfl

theorem stream_persists_mk {rid q did tid amsg status qm : Str}
    {st0 : ChatState} {mid : List SEvent} {ev : SEvent}
    (hfresh : ∀ c ∈ st0.capsules, c.run_id ≠ rid) :
    StreamTurnPersists rid q did tid st0
      ⟨(st0.messages ++ [⟨tid, "user".data, q, did, rid⟩])
         ++ [⟨tid, "assistant".data, amsg, did, rid⟩],
       st0.capsules ++ [⟨rid, did, q, qm, status⟩]⟩
      (mid ++ [ev,
        ⟨"done".data, JVal.jobj [("run_id".data, JVal.jstr rid)]⟩]) := by
  have h0 : st0.capsules.find? (fun c => c.run_id == rid) = none := by
    apply List.find?_eq_none.mpr
    intro c hc
    simp only [beq_iff_eq]
    exact hfresh c hc
  refine ⟨by simp, ?_, ⟨amsg, ?_⟩, ?_⟩
  · dsimp only
    rw [find?_append_none _ _ h0]
    simp [List.find?]
  · dsimp only
    rw [List.append_assoc]
    rfl
  · exact getLast_append_pair _ _ _

/-- Claim C6: every turn that completes — on every branch of the direct
path (`process_chat`: fast-path and feature-disabled rejections,
python-generation failure, chat draft, LLM-unavailable, policy
rejection, execution success or failure) and of the agent path
(`run_agent` and `stream_agent`: recursion-limit failure and normal
completion) — persists exactly one new capsule, retrievable by the
turn's run id (given the fresh uuid is not already stored), and appends
exactly the user message and one assistant message to the thread; a
streamed turn closes with a single final `done` event. -/
theorem c6_one_capsule_two_messages
    {o : ChatOracles} {req : ChatRequestM} {st0 st1 : ChatState}
    {resp : ChatResponseM}
    {loads : Str → Option JVal} {arid adid aq atid : Str}
    {inv : AgentInvoke} {ast0 ast1 : ChatState} {aresp : ChatResponseM}
    {sloads : Str → Option JVal} {srid sdid sq stid : Str}
    {smid : List SEvent} {sinv : AgentInvoke} {sst0 sst1 : ChatState}
    {sevents : List SEvent}
    (hfresh : ∀ c ∈ st0.capsules, c.run_id ≠ o.run_id)
    (h : process_chat o req st0 = (Except.ok resp, st1))
    (hafresh : ∀ c ∈ ast0.capsules, c.run_id ≠ arid)
    (ha : run_agent loads arid adid aq atid inv ast0
      = (Except.ok aresp, ast1))
    (hsfresh : ∀ c ∈ sst0.capsules, c.run_id ≠ srid)
    (hs : stream_agent_run sloads srid sdid sq stid smid sinv sst0
      = (Except.ok sevents, sst1)) :
    TurnPersists o.run_id req.message req.dataset_id resp.thread_id
      st0 st1 resp
    ∧ TurnPersists arid aq adid atid ast0 ast1 aresp
    ∧ StreamTurnPersists srid sq sdid stid sst0 sst1 sevents := by
  refine ⟨?_, ?_, ?_⟩
  · unfold process_chat at h
    by_cases hpy :
        ("python:".data.isPrefixOf (pyLower (pyStrip req.message))
          || (o.is_python_intent
              && !"sql:".data.isPrefixOf (pyLower (pyStrip req.message))))
          = true
    · rw [if_pos hpy] at h
      by_cases hen : (!o.enable_python) = true
      · rw [if_pos hen] at h
        exact finish_c6 hfresh h
      · rw [if_neg hen] at h
        by_cases hep :
            ("python:".data.isPrefixOf (pyLower (pyStrip req.message)))
              = true
        · rw [if_pos hep] at h
          obtain ⟨a, s, r, hf⟩ := execPhase_c6 h
          exact finish_c6 hfresh hf
        · rw [if_neg hep] at h
          cases hg : o.python_gen with
          | some g =>
            rw [hg] at h
            dsimp only at h
            obtain ⟨a, s, r, hf⟩ := execPhase_c6 h
            exact finish_c6 hfresh hf
          | none =>
            rw [hg] at h
            dsimp only at h
            cases hh : o.heuristic_python with
            | some hp =>
              rw [hh] at h
              dsimp only at h
              obtain ⟨a, s, r, hf⟩ := execPhase_c6 h
              exact finish_c6 hfresh hf
            | none =>
              rw [hh] at h
              dsimp only at h
              exact finish_c6 hfresh h
    · rw [if_neg hpy] at h
      by_cases hsq :
          ("sql:".data.isPrefixOf (pyLower (pyStrip req.message))) = true
      · rw [if_pos hsq] at h
        obtain ⟨a, s, r, hf⟩ := execPhase_c6 h
        exact finish_c6 hfresh hf
      · rw [if_neg hsq] at h
        cases hd : o.draft with
        | some d =>
          rw [hd] at h
          dsimp only at h
          by_cases hc : (d.query_mode == "chat".data) = true
          · rw [if_pos hc] at h
            exact finish_c6 hfresh h
          · rw [if_neg hc] at h
            by_cases hs2 : (d.query_mode == "sql".data) = true
            · rw [if_pos hs2] at h
              obtain ⟨a, s, r, hf⟩ := execPhase_c6 h
              exact finish_c6 hfresh hf
            · rw [if_neg hs2] at h
              cases hp : (match d.plan with
                  | some p => some p
                  | none => o.fallback_plan) with
              | none =>
                rw [hp] at h
                dsimp only at h
                injection h with h1 h2
                exact Except.noConfusion h1
              | some p =>
                rw [hp] at h
                dsimp only at h
                cases hcp : QueryPlanCompiler.compile p with
                | error e =>
                  rw [hcp] at h
                  dsimp only at h
                  injection h with h1 h2
                  exact Except.noConfusion h1
                | ok csql =>
                  rw [hcp] at h
                  dsimp only at h
                  obtain ⟨a, s, r, hf⟩ := execPhase_c6 h
                  exact finish_c6 hfresh hf
        | none =>
          rw [hd] at h
          dsimp only at h
          cases hr : o.rescue with
          | some r =>
            rw [hr] at h
            dsimp only at h
            obtain ⟨a, s, rr, hf⟩ := execPhase_c6 h
            exact finish_c6 hfresh hf
          | none =>
            rw [hr] at h
            dsimp only at h
            exact finish_c6 hfresh h
  · unfold run_agent at ha
    cases inv with
    | recursionError =>
      dsimp only at ha
      injection ha with h1 h2
      injection h1 with h1
      subst h1
      subst h2
      exact turn_persists_mk hafresh
    | ok msgs =>
      dsimp only at ha
      cases he : extract_capsule_data loads msgs adid aq with
      | none =>
        rw [he] at ha
        dsimp only at ha
        injection ha with h1 h2
        exact Except.noConfusion h1
      | some cap =>
        rw [he] at ha
        dsimp only at ha
        injection ha with h1 h2
        injection h1 with h1
        subst h1
        subst h2
        exact turn_persists_mk hafresh
  · unfold stream_agent_run at hs
    cases sinv with
    | recursionError =>
      dsimp only at hs
      injection hs with h1 h2
      injection h1 with h1
      subst h1
      subst h2
      exact stream_persists_mk hsfresh
    | ok msgs =>
      dsimp only at hs
      cases he : extract_capsule_data sloads msgs sdid sq with
      | none =>
        rw [he] at hs
        dsimp only at hs
        injection hs with h1 h2
        exact Except.noConfusion h1
      | some cap =>
        rw [he] at hs
        dsimp only at hs
        injection hs with h1 h2
        injection h1 with h1
        subst h1
        subst h2
        exact stream_persists_mk hsfresh

/-- Response of the C6 witness on `run_agent`'s recursion-limit branch. -/
def wAresp : ChatResponseM :=
  ⟨recursionAssistantMsg, "ra".data, "ta".data, "failed".data,
    errResult "AGENT_RECURSION_LIMIT".data⟩

/-- Final store state of the C6 witness on `run_agent`'s recursion-limit
branch. -/
def wAst1 : ChatState :=
  ⟨[⟨"ta".data, "user".data, "qa".data, "dsa".data, "ra".data⟩,
    ⟨"ta".data, "assistant".data, recursionAssistantMsg, "dsa".data,
      "ra".data⟩],
   [⟨"ra".data, "dsa".data, "qa".data, "chat".data, "failed".data⟩]⟩

/-- Events of the C6 witness on `stream_agent`'s normal branch. -/
def wSevents : List SEvent :=
  [⟨"result".data, JVal.jobj [("run_id".data, JVal.jstr "rs".data),
      ("status".data, JVal.jstr "succeeded".data)]⟩,
   ⟨"done".data, JVal.jobj [("run_id".data, JVal.jstr "rs".data)]⟩]

/-- Final store state of the C6 witness on `stream_agent`'s normal
branch (the C4 witness trace). -/
def wSst1 : ChatState :=
  ⟨[⟨"ts".data, "user".data, "q".data, "d".data, "rs".data⟩,
    ⟨"ts".data, "assistant".data, "All done".data, "d".data, "rs".data⟩],
   [⟨"rs".data, "d".data, "q".data, "sql".data, "succeeded".data⟩]⟩

/-- Witness for C6 on three concrete turns starting from empty stores:
the LLM-unavailable branch of `process_chat`, the recursion-limit branch
of `run_agent`, and the normal branch of `stream_agent`. -/
theorem c6_witness :
    TurnPersists w6o.run_id w6req.message w6req.dataset_id
        w6resp.thread_id ⟨[], []⟩ w6st1 w6resp
    ∧ TurnPersists "ra".data "qa".data "dsa".data "ta".data ⟨[], []⟩
        wAst1 wAresp
    ∧ StreamTurnPersists "rs".data "q".data "d".data "ts".data ⟨[], []⟩
        wSst1 wSevents :=
  @c6_one_capsule_two_messages w6o w6req ⟨[], []⟩ w6st1 w6resp
    w4loads "ra".data "dsa".data "qa".data "ta".data
    AgentInvoke.recursionError ⟨[], []⟩ wAst1 wAresp
    w4loads "rs".data "d".data "q".data "ts".data
    [] (AgentInvoke.ok w4msgs) ⟨[], []⟩ wSst1 wSevents
    (by intro c hc; cases hc) rfl
    (by intro c hc; cases hc) rfl
    (by intro c hc; cases hc) rfl
